import Mathlib

/-!
Verification of the sibling-ordering engine of a kanban task board.

The development shallowly embeds the ordering operations of the application:
the task store operations (moveTask, createTask, deleteTask) from the tasks
hook, the column store operations (reorderColumns, deleteColumn) from the
columns hook, and the drag-and-drop glue (customCollisionDetection,
handleDragOver, handleDragEnd) from the kanban board component.  Persistence
is modelled by an oracle boolean (persistOk) deciding whether the batched
upsert succeeds, and the rows sent to the backend are recorded explicitly.

Identifiers (uuids in the application) are modelled as natural numbers.
Array indices are natural numbers; the JavaScript splice clamps an
out-of-range insertion index to the end of the array, which List.take and
List.drop reproduce.  JavaScript Array.prototype.sort is stable; it is
modelled by a stable insertion sort on the position field.
-/

namespace Board

/-- Task record carried by the tasks store: id, denormalized page id,
owning column (the group key), sibling position, soft-delete flag and a
representative payload field (title). -/
structure Task where
  id : Nat
  page_id : Nat
  column_id : Nat
  position : Nat
  is_deleted : Bool
  title : String
deriving DecidableEq, Repr

/-- Column record carried by the columns store. -/
structure Column where
  id : Nat
  page_id : Nat
  title : String
  color : String
  position : Nat
deriving DecidableEq, Repr

/-- Row of the batched task upsert payload sent to the backend by moveTask. -/
structure TaskRow where
  id : Nat
  user_id : Nat
  page_id : Nat
  column_id : Nat
  position : Nat
deriving DecidableEq, Repr

/-- Row of the batched column upsert payload sent by reorderColumns. -/
structure ColRow where
  id : Nat
  page_id : Nat
  title : String
  color : String
  position : Nat
deriving DecidableEq, Repr

/-- Pending position update computed by moveTask before it is applied:
the updates array pushed by the two forEach loops. -/
structure Upd where
  id : Nat
  position : Nat
  column_id : Nat
deriving DecidableEq, Repr

/-- Insert a task into a list that is sorted by ascending position.  Ties
keep the earlier element first, matching the stable JavaScript sort with
comparator (a, b) => a.position - b.position. -/
def insertByPos (t : Task) : List Task → List Task
  | [] => [t]
  | s :: ss => if t.position < s.position then t :: s :: ss else s :: insertByPos t ss

/-- Stable sort by ascending position (model of .sort((a, b) => a.position - b.position)). -/
def sortByPos : List Task → List Task
  | [] => []
  | t :: ts => insertByPos t (sortByPos ts)

/-- Model of arr.splice(i, 0, a): insert a at index i, clamping to append
when i exceeds the length. -/
def splice {α : Type} (l : List α) (i : Nat) (a : α) : List α :=
  l.take i ++ a :: l.drop i

/-- Application of the computed updates to one task, as done by the
optimistic setTasks(prev => prev.map(...)): the first update whose id
matches overrides position and column_id, otherwise the task is unchanged. -/
def applyUpd (upds : List Upd) (t : Task) : Task :=
  match upds.find? (fun u => u.id == t.id) with
  | some u => { t with position := u.position, column_id := u.column_id }
  | none => t

/-- Updates pushed by the forEach loop over the spliced target-column list
in moveTask: the dragged task always gets (index, targetColumnId); any other
task is pushed only when its position differs from its array index. -/
def targetUpds (draggedId targetCol : Nat) : Nat → List Task → List Upd
  | _, [] => []
  | i, t :: ts =>
    (if t.id = draggedId then [⟨draggedId, i, targetCol⟩]
     else if t.position ≠ i then [⟨t.id, i, t.column_id⟩] else [])
      ++ targetUpds draggedId targetCol (i + 1) ts

/-- Updates pushed by the forEach loop over the source-column list (cross
column move only): a task is pushed when its position differs from its
array index. -/
def sourceUpds : Nat → List Task → List Upd
  | _, [] => []
  | i, t :: ts =>
    (if t.position ≠ i then [⟨t.id, i, t.column_id⟩] else []) ++ sourceUpds (i + 1) ts

/-- Updates array computed by moveTask for a found dragged task: target
column is the sorted list of its members other than the dragged task, with
the dragged task (column_id retargeted) spliced in at targetPosition; when
the move crosses columns the sorted source column (without the dragged
task) is reindexed as well. -/
def moveUpdates (tasks : List Task) (task : Task) (taskId targetCol targetPos : Nat) :
    List Upd :=
  let targetColumnTasks :=
    sortByPos (tasks.filter (fun t => t.column_id == targetCol && t.id != taskId))
  let spliced := splice targetColumnTasks targetPos { task with column_id := targetCol }
  let tUpds := targetUpds taskId targetCol 0 spliced
  if task.column_id == targetCol then tUpds
  else
    let sourceColumnTasks :=
      sortByPos (tasks.filter (fun t => t.column_id == task.column_id && t.id != taskId))
    tUpds ++ sourceUpds 0 sourceColumnTasks

/-- Result of one store operation on tasks: the resulting collection, the
returned boolean, and the list of batched upsert calls issued (each call is
one row list). -/
structure MoveOutcome where
  tasks : List Task
  ret : Bool
  calls : List (List TaskRow)
deriving DecidableEq, Repr

/-- Model of moveTask from the tasks hook: find the task; compute the
updates; apply them optimistically; issue one batched upsert whose rows all
carry the dragged task's page_id; on persistence failure restore the
snapshot taken before the optimistic update and return false. -/
def moveTask (user : Option Nat) (tasks : List Task)
    (taskId targetCol targetPos : Nat) (persistOk : Bool) : MoveOutcome :=
  match tasks.find? (fun t => t.id == taskId), user with
  | some task, some uid =>
    let updates := moveUpdates tasks task taskId targetCol targetPos
    let upsertData : List TaskRow :=
      updates.map (fun u => ⟨u.id, uid, task.page_id, u.column_id, u.position⟩)
    let optimistic := tasks.map (applyUpd updates)
    if persistOk then ⟨optimistic, true, [upsertData]⟩
    else ⟨tasks, false, [upsertData]⟩
  | _, _ => ⟨tasks, false, []⟩

/-- Reindex of a column list with position := array index, modelling
newColumns.map((col, index) => (..col, position: index)). -/
def reindexCols : Nat → List Column → List Column
  | _, [] => []
  | i, c :: cs => { c with position := i } :: reindexCols (i + 1) cs

/-- Result of reorderColumns: resulting collection, returned boolean, and
batched upsert calls issued. -/
structure ReorderOutcome where
  columns : List Column
  ret : Bool
  calls : List (List ColRow)
deriving DecidableEq, Repr

/-- Model of reorderColumns from the columns hook: remove the column from
its current index, splice it in at newPosition, reindex every column to its
array index, apply optimistically, and issue one batched upsert that carries
a row for every column of the page; on failure restore the snapshot and
return false. -/
def reorderColumns (columns : List Column) (columnId newPosition : Nat)
    (persistOk : Bool) : ReorderOutcome :=
  match columns.findIdx? (fun c => c.id == columnId) with
  | none => ⟨columns, false, []⟩
  | some currentIndex =>
    match columns[currentIndex]? with
    | none => ⟨columns, false, []⟩
    | some removed =>
      let rest := columns.take currentIndex ++ columns.drop (currentIndex + 1)
      let newColumns := splice rest newPosition removed
      let reordered := reindexCols 0 newColumns
      let updates : List ColRow :=
        reordered.map (fun c => ⟨c.id, c.page_id, c.title, c.color, c.position⟩)
      if persistOk then ⟨reordered, true, [updates]⟩
      else ⟨columns, false, [updates]⟩

/-- Optimistic local state of createTask (insert-at-top fast path): the new
task (position 0) is prepended and every existing task of the same column
has its position incremented by one; other columns are untouched. -/
def createTaskLocal (tasks : List Task) (newTask : Task) : List Task :=
  newTask ::
    tasks.map (fun t =>
      if t.column_id == newTask.column_id then { t with position := t.position + 1 } else t)

/-- Reindex of a task list with position := array index (used to express
the full-reindex specification that the fast path is compared against). -/
def reindexTasks : Nat → List Task → List Task
  | _, [] => []
  | i, t :: ts => { t with position := i } :: reindexTasks (i + 1) ts

/-- Specification-side insert: the column's ordered list with the new task
spliced in at index 0, every member assigned position := array index.  This
definition follows the specification's words and serves as the comparison
point for the fast path of createTask. -/
def specInsertTopReindex (tasks : List Task) (newTask : Task) : List Task :=
  reindexTasks 0
    (newTask :: sortByPos (tasks.filter (fun t => t.column_id == newTask.column_id)))

/-- Kind of backend call used to delete an item. -/
inductive DeleteKind
  | softDelete
  | hardDelete
deriving DecidableEq, Repr

/-- Model of deleteTask from the tasks hook: the backend receives an update
setting is_deleted (a soft delete) and the task is removed from the
in-memory collection; no other task is touched. -/
def deleteTask (tasks : List Task) (taskId : Nat) : List Task × DeleteKind :=
  (tasks.filter (fun t => t.id != taskId), DeleteKind.softDelete)

/-- Model of deleteColumn from the columns hook: the backend receives a
delete of the row (a hard delete) and the column is removed from the
in-memory collection; no other column is touched. -/
def deleteColumn (columns : List Column) (columnId : Nat) : List Column × DeleteKind :=
  (columns.filter (fun c => c.id != columnId), DeleteKind.hardDelete)

/-- Kind of droppable region a collision is against. -/
inductive DropKind
  | task
  | column
  | other
deriving DecidableEq, Repr

/-- Collision entry as produced by the pointer-containment or
rectangle-intersection passes of the drag library. -/
structure Collision where
  id : Nat
  kind : DropKind
deriving DecidableEq, Repr

/-- Model of customCollisionDetection from the kanban board: run the
pointer-containment pass; if it produced collisions, return the first
task-typed collision alone when one exists, otherwise all pointer
collisions; with no pointer collision fall back to rectangle
intersection. -/
def customCollisionDetection (pointerCollisions rectCollisions : List Collision) :
    List Collision :=
  if pointerCollisions.length > 0 then
    match pointerCollisions.find? (fun c => c.kind == DropKind.task) with
    | some taskCollision => [taskCollision]
    | none => pointerCollisions
  else
    rectCollisions

/-- Tasks of one column ordered by position, as computed by
getTasksByColumn (group in store order, then stable sort by position). -/
def tasksByColumn (tasks : List Task) (colId : Nat) : List Task :=
  sortByPos (tasks.filter (fun t => t.column_id == colId))

/-- Target index computed by handleDragOver when hovering a task (part of
the drop-indicator preview): the hovered task's index in its column,
adjusted by +1 when the drag stays in one column and goes downwards.
List.findIdx models Array.prototype.findIndex for elements that are
present. -/
def dragOverTargetIndex (tasks : List Task) (activeT overT : Task) : Nat :=
  let columnTasks := tasksByColumn tasks overT.column_id
  let overTaskIndex := columnTasks.findIdx (fun t => t.id == overT.id)
  let activeColumnTasks := tasksByColumn tasks activeT.column_id
  let activeTaskIndex := activeColumnTasks.findIdx (fun t => t.id == activeT.id)
  if activeT.column_id == overT.column_id && activeTaskIndex < overTaskIndex then
    overTaskIndex + 1
  else
    overTaskIndex

/-- Target position computed by handleDragEnd when the drop lands on a
task: both branches of its conditional assign the hovered task's index
unadjusted. -/
def dragEndTargetIndex (tasks : List Task) (activeT overT : Task) : Nat :=
  let columnTasks := tasksByColumn tasks overT.column_id
  let overTaskIndex := columnTasks.findIdx (fun t => t.id == overT.id)
  let activeColumnTasks := tasksByColumn tasks activeT.column_id
  let activeTaskIndex := activeColumnTasks.findIdx (fun t => t.id == activeT.id)
  if activeT.column_id == overT.column_id && activeTaskIndex < overTaskIndex then
    overTaskIndex
  else
    overTaskIndex

/-- Model of one moveTask call made from the handleDragEnd loop.  The
updates are computed from the stale task list captured by the moveTask
closure at render time, while the optimistic functional state update
applies to the current collection.  Persistence is taken to succeed. -/
def moveTaskStale (user : Option Nat) (stale current : List Task)
    (taskId targetCol targetPos : Nat) : MoveOutcome :=
  match stale.find? (fun t => t.id == taskId), user with
  | some task, some uid =>
    let updates := moveUpdates stale task taskId targetCol targetPos
    let upsertData : List TaskRow :=
      updates.map (fun u => ⟨u.id, uid, task.page_id, u.column_id, u.position⟩)
    let optimistic := current.map (applyUpd updates)
    ⟨optimistic, true, [upsertData]⟩
  | _, _ => ⟨current, false, []⟩

/-- Loop body of handleDragEnd over the tasks to move: the i-th selected
task is looked up in the stale list and moved to targetPos + i, except that
a single-task move already at its target column and position is skipped. -/
def dragEndLoop (user : Option Nat) (stale : List Task) (single : Bool)
    (targetCol targetPos : Nat) :
    Nat → List Nat → List Task → List (List TaskRow) →
    List Task × List (List TaskRow)
  | _, [], current, calls => (current, calls)
  | i, tid :: rest, current, calls =>
    match stale.find? (fun t => t.id == tid) with
    | none => dragEndLoop user stale single targetCol targetPos (i + 1) rest current calls
    | some task =>
      if single && task.column_id == targetCol && task.position == targetPos then
        dragEndLoop user stale single targetCol targetPos (i + 1) rest current calls
      else
        let r := moveTaskStale user stale current tid targetCol (targetPos + i)
        dragEndLoop user stale single targetCol targetPos (i + 1) rest r.tasks
          (calls ++ r.calls)

/-- Model of the task-drop part of handleDragEnd: resolve the set of tasks
to move (the whole selection when more than one task is selected and the
dragged task is among them, otherwise just the dragged task), then move
them sequentially to consecutive target positions. -/
def handleDragEndMoves (user : Option Nat) (tasks : List Task)
    (selectedIds : List Nat) (draggedId targetCol targetPos : Nat) :
    List Task × List (List TaskRow) :=
  let tasksToMove :=
    if selectedIds.length > 1 && selectedIds.contains draggedId then selectedIds
    else [draggedId]
  dragEndLoop user tasks (tasksToMove.length == 1) targetCol targetPos 0 tasksToMove
    tasks []

/-- Dense positions: the multiset of positions of a group is exactly
0, 1, ..., n-1. -/
def dense (l : List Task) : Prop :=
  (l.map (fun t => t.position)).Perm (List.range l.length)

instance (l : List Task) : Decidable (dense l) := by
  unfold dense
  infer_instance

/-- Reindex helper describing the net effect of applying the computed
updates to the spliced column list: the element at offset i gets position i,
and the dragged task additionally gets the target column. -/
def reindexT (dId c : Nat) : Nat → List Task → List Task
  | _, [] => []
  | i, t :: ts =>
    (if t.id = dId then { t with position := i, column_id := c }
     else { t with position := i }) :: reindexT dId c (i + 1) ts

/-! ### Lemmas about the stable sort -/

theorem insertByPos_perm (t : Task) (l : List Task) : (insertByPos t l).Perm (t :: l) := by
  induction l with
  | nil => exact List.Perm.refl _
  | cons s ss ih =>
    unfold insertByPos
    by_cases h : t.position < s.position
    · rw [if_pos h]
    · rw [if_neg h]
      exact (ih.cons s).trans (List.Perm.swap t s ss)

theorem sortByPos_perm (l : List Task) : (sortByPos l).Perm l := by
  induction l with
  | nil => exact List.Perm.refl _
  | cons t ts ih => exact (insertByPos_perm t (sortByPos ts)).trans (ih.cons t)

/-! ### Lemmas about applyUpd -/

theorem applyUpd_frame (upds : List Upd) (t : Task) :
    (applyUpd upds t).id = t.id ∧ (applyUpd upds t).page_id = t.page_id ∧
      (applyUpd upds t).is_deleted = t.is_deleted ∧ (applyUpd upds t).title = t.title := by
  unfold applyUpd
  cases upds.find? (fun u => u.id == t.id) <;> simp

theorem applyUpd_of_forall_ne (upds : List Upd) (t : Task)
    (h : ∀ u ∈ upds, u.id ≠ t.id) : applyUpd upds t = t := by
  unfold applyUpd
  have h0 : upds.find? (fun u => u.id == t.id) = none :=
    List.find?_eq_none.mpr (fun u hu => by simpa using h u hu)
  rw [h0]

theorem applyUpd_append_ne (pre upds : List Upd) (t : Task)
    (h : ∀ u ∈ pre, u.id ≠ t.id) : applyUpd (pre ++ upds) t = applyUpd upds t := by
  unfold applyUpd
  rw [List.find?_append]
  have h0 : pre.find? (fun u => u.id == t.id) = none :=
    List.find?_eq_none.mpr (fun u hu => by simpa using h u hu)
  rw [h0, Option.none_or]

theorem map_applyUpd_cons_ne (v : Upd) (upds : List Upd) (l : List Task)
    (h : ∀ s ∈ l, s.id ≠ v.id) :
    l.map (applyUpd (v :: upds)) = l.map (applyUpd upds) :=
  List.map_congr_left fun s hs =>
    applyUpd_append_ne [v] upds s (by
      intro u hu
      rw [List.mem_singleton] at hu
      subst hu
      exact fun he => h s hs he.symm)

/-! ### Lemmas about the update-building loops -/

theorem targetUpds_ids (dId c : Nat) (l : List Task) :
    ∀ (i : Nat), ∀ u ∈ targetUpds dId c i l, ∃ s ∈ l, u.id = s.id := by
  induction l with
  | nil => intro i u hu; simp [targetUpds] at hu
  | cons t ts ih =>
    intro i u hu
    unfold targetUpds at hu
    rw [List.mem_append] at hu
    rcases hu with hu | hu
    · refine ⟨t, List.mem_cons_self t ts, ?_⟩
      by_cases h1 : t.id = dId
      · rw [if_pos h1] at hu
        rw [List.mem_singleton] at hu
        subst hu
        exact h1.symm
      · rw [if_neg h1] at hu
        by_cases h2 : t.position ≠ i
        · rw [if_pos h2, List.mem_singleton] at hu
          subst hu
          rfl
        · rw [if_neg h2] at hu
          simp at hu
    · obtain ⟨s, hs, he⟩ := ih (i + 1) u hu
      exact ⟨s, List.mem_cons_of_mem t hs, he⟩

theorem targetUpds_origin (dId c : Nat) (l : List Task) :
    ∀ (i : Nat), ∀ u ∈ targetUpds dId c i l, u.id ≠ dId →
      ∃ s ∈ l, s.id = u.id ∧ s.position ≠ u.position ∧ s.column_id = u.column_id := by
  induction l with
  | nil => intro i u hu; simp [targetUpds] at hu
  | cons t ts ih =>
    intro i u hu hne
    unfold targetUpds at hu
    rw [List.mem_append] at hu
    rcases hu with hu | hu
    · by_cases h1 : t.id = dId
      · rw [if_pos h1, List.mem_singleton] at hu
        subst hu
        exact absurd rfl hne
      · rw [if_neg h1] at hu
        by_cases h2 : t.position ≠ i
        · rw [if_pos h2, List.mem_singleton] at hu
          subst hu
          exact ⟨t, List.mem_cons_self t ts, rfl, h2, rfl⟩
        · rw [if_neg h2] at hu
          simp at hu
    · obtain ⟨s, hs, h⟩ := ih (i + 1) u hu hne
      exact ⟨s, List.mem_cons_of_mem t hs, h⟩

theorem sourceUpds_origin (l : List Task) :
    ∀ (i : Nat), ∀ u ∈ sourceUpds i l,
      ∃ s ∈ l, s.id = u.id ∧ s.position ≠ u.position ∧ s.column_id = u.column_id := by
  induction l with
  | nil => intro i u hu; simp [sourceUpds] at hu
  | cons t ts ih =>
    intro i u hu
    unfold sourceUpds at hu
    rw [List.mem_append] at hu
    rcases hu with hu | hu
    · by_cases h2 : t.position ≠ i
      · rw [if_pos h2, List.mem_singleton] at hu
        subst hu
        exact ⟨t, List.mem_cons_self t ts, rfl, h2, rfl⟩
      · rw [if_neg h2] at hu
        simp at hu
    · obtain ⟨s, hs, h⟩ := ih (i + 1) u hu
      exact ⟨s, List.mem_cons_of_mem t hs, h⟩

theorem sourceUpds_eq_targetUpds (dId c : Nat) (l : List Task) :
    ∀ (i : Nat), (∀ s ∈ l, s.id ≠ dId) → sourceUpds i l = targetUpds dId c i l := by
  induction l with
  | nil => intro i _; rfl
  | cons t ts ih =>
    intro i h
    unfold sourceUpds targetUpds
    rw [if_neg (h t (List.mem_cons_self t ts)),
      ih (i + 1) (fun s hs => h s (List.mem_cons_of_mem t hs))]

/-! ### Lemmas about reindexT -/

theorem reindexT_length (dId c : Nat) (l : List Task) :
    ∀ (i : Nat), (reindexT dId c i l).length = l.length := by
  induction l with
  | nil => intro i; rfl
  | cons t ts ih =>
    intro i
    unfold reindexT
    rw [List.length_cons, List.length_cons, ih (i + 1)]

theorem reindexT_positions (dId c : Nat) (l : List Task) :
    ∀ (i : Nat), (reindexT dId c i l).map (fun t => t.position) = List.range' i l.length := by
  induction l with
  | nil => intro i; rfl
  | cons t ts ih =>
    intro i
    unfold reindexT
    rw [List.map_cons, List.length_cons, List.range'_succ, ih (i + 1)]
    by_cases h : t.id = dId
    · rw [if_pos h]
    · rw [if_neg h]

theorem reindexT_append (dId c : Nat) (a : List Task) :
    ∀ (b : List Task) (i : Nat),
      reindexT dId c i (a ++ b) = reindexT dId c i a ++ reindexT dId c (i + a.length) b := by
  induction a with
  | nil => intro b i; simp [reindexT]
  | cons t ts ih =>
    intro b i
    rw [List.cons_append]
    unfold reindexT
    rw [ih b (i + 1), List.cons_append, List.length_cons]
    have h : i + 1 + ts.length = i + (ts.length + 1) := by omega
    rw [h]
    cases b <;> rfl

/-! ### Unfolding lemmas for the update loops -/

theorem targetUpds_cons (dId c i : Nat) (t : Task) (ts : List Task) :
    targetUpds dId c i (t :: ts) =
      (if t.id = dId then [⟨dId, i, c⟩]
       else if t.position ≠ i then [⟨t.id, i, t.column_id⟩] else []) ++
        targetUpds dId c (i + 1) ts := rfl

theorem targetUpds_cons_dragged (dId c i : Nat) (t : Task) (ts : List Task) (h : t.id = dId) :
    targetUpds dId c i (t :: ts) = ⟨dId, i, c⟩ :: targetUpds dId c (i + 1) ts := by
  rw [targetUpds_cons, if_pos h]
  rfl

theorem targetUpds_cons_moved (dId c i : Nat) (t : Task) (ts : List Task)
    (h1 : t.id ≠ dId) (h2 : t.position ≠ i) :
    targetUpds dId c i (t :: ts) = ⟨t.id, i, t.column_id⟩ :: targetUpds dId c (i + 1) ts := by
  rw [targetUpds_cons, if_neg h1, if_pos h2]
  rfl

theorem targetUpds_cons_skip (dId c i : Nat) (t : Task) (ts : List Task)
    (h1 : t.id ≠ dId) (h2 : t.position = i) :
    targetUpds dId c i (t :: ts) = targetUpds dId c (i + 1) ts := by
  rw [targetUpds_cons, if_neg h1, if_neg (by simp [h2])]
  rfl

theorem reindexT_cons (dId c i : Nat) (t : Task) (ts : List Task) :
    reindexT dId c i (t :: ts) =
      (if t.id = dId then { t with position := i, column_id := c }
       else { t with position := i }) :: reindexT dId c (i + 1) ts := rfl

/-! ### Effect of the computed updates on the list they were computed from -/

theorem map_applyUpd_targetUpds (dId c : Nat) (b : List Task) :
    ∀ (i : Nat) (rest : List Upd),
      (b.map (fun t => t.id)).Nodup →
      (∀ u ∈ rest, ∀ s ∈ b, u.id ≠ s.id) →
      b.map (applyUpd (targetUpds dId c i b ++ rest)) = reindexT dId c i b := by
  induction b with
  | nil => intro i rest _ _; rfl
  | cons t ts ih =>
    intro i rest hnd hrest
    rw [List.map_cons, List.nodup_cons] at hnd
    obtain ⟨hti, hnd'⟩ := hnd
    have htne : ∀ s ∈ ts, s.id ≠ t.id := by
      intro s hs he
      exact hti (he ▸ List.mem_map_of_mem (fun x => x.id) hs)
    have hrest' : ∀ u ∈ rest, ∀ s ∈ ts, u.id ≠ s.id :=
      fun u hu s hs => hrest u hu s (List.mem_cons_of_mem t hs)
    have hih := ih (i + 1) rest hnd' hrest'
    have htail : ∀ u ∈ targetUpds dId c (i + 1) ts ++ rest, u.id ≠ t.id := by
      intro u hu
      rw [List.mem_append] at hu
      rcases hu with hu | hu
      · obtain ⟨s, hs, he⟩ := targetUpds_ids dId c ts (i + 1) u hu
        rw [he]
        exact htne s hs
      · exact hrest u hu t (List.mem_cons_self t ts)
    by_cases h1 : t.id = dId
    · rw [targetUpds_cons_dragged dId c i t ts h1, List.cons_append, reindexT_cons, if_pos h1,
        List.map_cons]
      congr 1
      · unfold applyUpd
        rw [@List.find?_cons_of_pos Upd (fun u => u.id == t.id) ⟨dId, i, c⟩
          (targetUpds dId c (i + 1) ts ++ rest) (by simp [h1])]
      · rw [map_applyUpd_cons_ne ⟨dId, i, c⟩ (targetUpds dId c (i + 1) ts ++ rest) ts
          (fun s hs he => htne s hs (he.trans h1.symm))]
        exact hih
    · by_cases h2 : t.position ≠ i
      · rw [targetUpds_cons_moved dId c i t ts h1 h2, List.cons_append, reindexT_cons,
          if_neg h1, List.map_cons]
        congr 1
        · unfold applyUpd
          rw [@List.find?_cons_of_pos Upd (fun u => u.id == t.id) ⟨t.id, i, t.column_id⟩
            (targetUpds dId c (i + 1) ts ++ rest) (by simp)]
        · rw [map_applyUpd_cons_ne ⟨t.id, i, t.column_id⟩
            (targetUpds dId c (i + 1) ts ++ rest) ts htne]
          exact hih
      · have h2' : t.position = i := not_not.mp h2
        rw [targetUpds_cons_skip dId c i t ts h1 h2', reindexT_cons, if_neg h1, List.map_cons,
          hih]
        congr 1
        rw [applyUpd_of_forall_ne _ _ htail, ← h2']

theorem map_applyUpd_targetUpds_seg (dId c : Nat) (a : List Task) :
    ∀ (b : List Task) (i : Nat) (rest : List Upd),
      ((a ++ b).map (fun t => t.id)).Nodup →
      (∀ u ∈ rest, ∀ s ∈ a ++ b, u.id ≠ s.id) →
      b.map (applyUpd (targetUpds dId c i (a ++ b) ++ rest)) =
        reindexT dId c (i + a.length) b := by
  induction a with
  | nil =>
    intro b i rest hnd hrest
    rw [List.nil_append] at hnd hrest
    simpa using map_applyUpd_targetUpds dId c b i rest hnd hrest
  | cons s a' ih =>
    intro b i rest hnd hrest
    rw [List.cons_append, List.map_cons, List.nodup_cons] at hnd
    obtain ⟨hsi, hnd'⟩ := hnd
    have hsb : ∀ x ∈ b, x.id ≠ s.id := fun x hx he =>
      hsi (he ▸ List.mem_map_of_mem (fun y => y.id) (List.mem_append_right a' hx))
    have hrest' : ∀ u ∈ rest, ∀ x ∈ a' ++ b, u.id ≠ x.id :=
      fun u hu x hx => hrest u hu x (List.mem_cons_of_mem s hx)
    have hih := ih b (i + 1) rest hnd' hrest'
    have hlen : i + 1 + a'.length = i + (s :: a').length := by
      rw [List.length_cons]
      omega
    rw [List.cons_append]
    by_cases h1 : s.id = dId
    · rw [targetUpds_cons_dragged dId c i s (a' ++ b) h1, List.cons_append,
        map_applyUpd_cons_ne ⟨dId, i, c⟩ (targetUpds dId c (i + 1) (a' ++ b) ++ rest) b
          (fun x hx he => hsb x hx (he.trans h1.symm)), hih, hlen]
    · by_cases h2 : s.position ≠ i
      · rw [targetUpds_cons_moved dId c i s (a' ++ b) h1 h2, List.cons_append,
          map_applyUpd_cons_ne ⟨s.id, i, s.column_id⟩
            (targetUpds dId c (i + 1) (a' ++ b) ++ rest) b hsb, hih, hlen]
      · rw [targetUpds_cons_skip dId c i s (a' ++ b) h1 (not_not.mp h2), hih, hlen]

theorem find?_targetUpds_dragged (dId c : Nat) (a : List Task) :
    ∀ (t : Task) (b : List Task) (i : Nat) (rest : List Upd),
      t.id = dId → (∀ s ∈ a, s.id ≠ dId) →
      (targetUpds dId c i (a ++ t :: b) ++ rest).find? (fun u => u.id == dId) =
        some ⟨dId, i + a.length, c⟩ := by
  induction a with
  | nil =>
    intro t b i rest ht _
    rw [List.nil_append, targetUpds_cons_dragged dId c i t b ht, List.cons_append,
      @List.find?_cons_of_pos Upd (fun u => u.id == dId) ⟨dId, i, c⟩
        (targetUpds dId c (i + 1) b ++ rest) (by simp)]
    simp
  | cons s a' ih =>
    intro t b i rest ht ha
    have hs : s.id ≠ dId := ha s (List.mem_cons_self s a')
    have ha' : ∀ x ∈ a', x.id ≠ dId := fun x hx => ha x (List.mem_cons_of_mem s hx)
    have hih := ih t b (i + 1) rest ht ha'
    have hlen : i + 1 + a'.length = i + (s :: a').length := by
      rw [List.length_cons]
      omega
    rw [List.cons_append]
    by_cases h2 : s.position ≠ i
    · rw [targetUpds_cons_moved dId c i s (a' ++ t :: b) hs h2, List.cons_append,
        @List.find?_cons_of_neg Upd (fun u => u.id == dId) ⟨s.id, i, s.column_id⟩
          (targetUpds dId c (i + 1) (a' ++ t :: b) ++ rest) (by simp [hs]), hih, hlen]
    · rw [targetUpds_cons_skip dId c i s (a' ++ t :: b) hs (not_not.mp h2), hih, hlen]

theorem applyUpd_dragged (dId c : Nat) (a b : List Task) (t t' : Task) (i : Nat)
    (rest : List Upd) (ht : t.id = dId) (ht' : t'.id = dId) (ha : ∀ s ∈ a, s.id ≠ dId) :
    applyUpd (targetUpds dId c i (a ++ t :: b) ++ rest) t' =
      { t' with position := i + a.length, column_id := c } := by
  unfold applyUpd
  rw [ht', find?_targetUpds_dragged dId c a t b i rest ht ha]

/-! ### Splice and filter helpers -/

theorem splice_perm {α : Type} (l : List α) (i : Nat) (a : α) :
    (splice l i a).Perm (a :: l) := by
  unfold splice
  have h1 : (l.take i ++ a :: l.drop i).Perm (a :: (l.take i ++ l.drop i)) := List.perm_middle
  rw [List.take_append_drop] at h1
  exact h1

theorem mem_splice_iff {α : Type} (l : List α) (i : Nat) (a x : α) :
    x ∈ splice l i a ↔ x = a ∨ x ∈ l :=
  (splice_perm l i a).mem_iff.trans (List.mem_cons)

theorem nodup_ids_filter (l : List Task) (p : Task → Bool)
    (hnd : (l.map (fun t => t.id)).Nodup) :
    ((l.filter p).map (fun t => t.id)).Nodup :=
  ((l.filter_sublist).map (fun t => t.id)).nodup hnd

theorem filter_or_perm {α : Type} (p q : α → Bool) (l : List α)
    (h : ∀ a ∈ l, ¬(p a = true ∧ q a = true)) :
    (l.filter (fun a => p a || q a)).Perm (l.filter p ++ l.filter q) := by
  induction l with
  | nil => exact List.Perm.refl _
  | cons a l ih =>
    have ih' := ih (fun x hx => h x (List.mem_cons_of_mem a hx))
    by_cases hp : p a = true
    · have hq : ¬q a = true := fun hq => h a (List.mem_cons_self a l) ⟨hp, hq⟩
      simp only [List.filter_cons, hp, Bool.true_or, if_true,
        if_neg hq, List.cons_append]
      exact ih'.cons a
    · simp only [List.filter_cons, (Bool.not_eq_true _).mp hp, Bool.false_or, if_neg hp]
      by_cases hq : q a = true
      · simp only [hq, if_true]
        exact (ih'.cons a).trans List.perm_middle.symm
      · simp only [if_neg hq]
        exact ih'

theorem filter_id_singleton (tasks : List Task) (tid : Nat) (task : Task)
    (hfind : tasks.find? (fun t => t.id == tid) = some task)
    (hnd : (tasks.map (fun t => t.id)).Nodup) :
    tasks.filter (fun t => t.id == tid) = [task] := by
  induction tasks with
  | nil => simp at hfind
  | cons t ts ih =>
    rw [List.map_cons, List.nodup_cons] at hnd
    obtain ⟨hmem, hnd'⟩ := hnd
    by_cases h : (t.id == tid) = true
    · rw [@List.find?_cons_of_pos Task (fun s => s.id == tid) t ts h] at hfind
      have he : t = task := by
        injection hfind
      subst he
      simp only [List.filter_cons, h, if_true, List.cons.injEq, true_and]
      rw [List.filter_eq_nil_iff]
      intro s hs hst
      apply hmem
      have h1 : t.id = tid := by simpa using h
      have h2 : s.id = tid := by simpa using hst
      rw [h1, ← h2]
      exact List.mem_map_of_mem (fun x => x.id) hs
    · rw [@List.find?_cons_of_neg Task (fun s => s.id == tid) t ts h] at hfind
      simp only [List.filter_cons, if_neg h]
      exact ih hfind hnd'

theorem applyUpd_col_preserved (tasks : List Task) (tid : Nat) (upds : List Upd)
    (hnd : (tasks.map (fun t => t.id)).Nodup)
    (hsound : ∀ u ∈ upds, u.id = tid ∨ ∃ s ∈ tasks, s.id = u.id ∧ s.column_id = u.column_id)
    (t : Task) (ht : t ∈ tasks) (hne : t.id ≠ tid) :
    (applyUpd upds t).column_id = t.column_id := by
  unfold applyUpd
  cases hfind : upds.find? (fun u => u.id == t.id) with
  | none => rfl
  | some u =>
    have hu : u ∈ upds := List.mem_of_find?_eq_some hfind
    have hid : u.id = t.id := by simpa using List.find?_some hfind
    rcases hsound u hu with h | ⟨s, hs, hsi, hsc⟩
    · exact absurd (hid.symm.trans h) hne
    · have hst : s = t := List.inj_on_of_nodup_map hnd hs ht (hsi.trans hid)
      subst hst
      exact hsc.symm

/-! ### Density of the destination column after applying the move updates -/

theorem dense_target_core (tasks targetRaw targetSorted tk dr : List Task)
    (task dM : Task) (rest U : List Upd) (tid tCol tPos : Nat)
    (hnd : (tasks.map (fun t => t.id)).Nodup)
    (hfind : tasks.find? (fun t => t.id == tid) = some task)
    (hTR : targetRaw = tasks.filter (fun t => t.column_id == tCol && t.id != tid))
    (hTS : targetSorted = sortByPos targetRaw)
    (hdM : dM = { task with column_id := tCol })
    (htk : tk = targetSorted.take tPos)
    (hdr : dr = targetSorted.drop tPos)
    (hU : U = targetUpds tid tCol 0 (tk ++ dM :: dr) ++ rest)
    (hrestSp : ∀ u ∈ rest, ∀ s ∈ tk ++ dM :: dr, u.id ≠ s.id)
    (hrestSound : ∀ u ∈ rest, ∃ s ∈ tasks, s.id = u.id ∧ s.column_id = u.column_id) :
    dense ((tasks.map (applyUpd U)).filter (fun t => t.column_id == tCol)) := by
  have htid : task.id = tid := by simpa using List.find?_some hfind
  have htmem : task ∈ tasks := List.mem_of_find?_eq_some hfind
  have hdMid : dM.id = tid := by rw [hdM]; exact htid
  have hTRfacts : ∀ s ∈ targetRaw, s ∈ tasks ∧ s.column_id = tCol ∧ s.id ≠ tid := by
    intro s hs
    rw [hTR, List.mem_filter] at hs
    obtain ⟨h1, h2⟩ := hs
    rw [Bool.and_eq_true, beq_iff_eq, bne_iff_ne] at h2
    exact ⟨h1, h2.1, h2.2⟩
  have hTSsub : ∀ s ∈ targetSorted, s ∈ targetRaw := by
    intro s hs
    rw [hTS] at hs
    exact (sortByPos_perm targetRaw).subset hs
  have hTKDR : tk ++ dr = targetSorted := by
    rw [htk, hdr, List.take_append_drop]
  have hsplit : ∀ s ∈ tk ++ dM :: dr, s = dM ∨ s ∈ targetRaw := by
    intro s hs
    rw [List.mem_append, List.mem_cons] at hs
    rcases hs with hs | hs | hs
    · exact Or.inr (hTSsub s (by rw [← hTKDR]; exact List.mem_append_left dr hs))
    · exact Or.inl hs
    · exact Or.inr (hTSsub s (by rw [← hTKDR]; exact List.mem_append_right tk hs))
  have hndTR : (targetRaw.map (fun t => t.id)).Nodup := by
    rw [hTR]
    exact nodup_ids_filter tasks _ hnd
  have hndTS : (targetSorted.map (fun t => t.id)).Nodup := by
    rw [hTS]
    exact (((sortByPos_perm targetRaw).map (fun t => t.id)).symm).nodup hndTR
  have hpermSp : (tk ++ dM :: dr).Perm (dM :: targetSorted) := by
    have h1 : (tk ++ dM :: dr).Perm (dM :: (tk ++ dr)) := List.perm_middle
    rw [hTKDR] at h1
    exact h1
  have hndSp : ((tk ++ dM :: dr).map (fun t => t.id)).Nodup := by
    refine ((hpermSp.map (fun t => t.id)).symm).nodup ?_
    rw [List.map_cons, List.nodup_cons]
    refine ⟨?_, hndTS⟩
    intro hmm
    rw [List.mem_map] at hmm
    obtain ⟨s, hs, he⟩ := hmm
    exact (hTRfacts s (hTSsub s hs)).2.2 (he.trans hdMid)
  have hsound : ∀ u ∈ U, u.id = tid ∨ ∃ s ∈ tasks, s.id = u.id ∧ s.column_id = u.column_id := by
    intro u hu
    rw [hU, List.mem_append] at hu
    rcases hu with hu | hu
    · by_cases hid : u.id = tid
      · exact Or.inl hid
      · obtain ⟨s, hs, hsi, _, hsc⟩ := targetUpds_origin tid tCol (tk ++ dM :: dr) 0 u hu hid
        rcases hsplit s hs with h | h
        · exact absurd (hsi.symm.trans (h ▸ hdMid)) hid
        · exact Or.inr ⟨s, (hTRfacts s h).1, hsi, hsc⟩
    · obtain ⟨s, hs, h⟩ := hrestSound u hu
      exact Or.inr ⟨s, hs, h⟩
  have htkne : ∀ s ∈ tk, s.id ≠ tid := by
    intro s hs
    exact (hTRfacts s (hTSsub s (by rw [← hTKDR]; exact List.mem_append_left dr hs))).2.2
  have hfd : applyUpd U task = { task with position := 0 + tk.length, column_id := tCol } := by
    rw [hU]
    exact applyUpd_dragged tid tCol tk dr dM task 0 rest hdMid htid htkne
  have hQf : ∀ t ∈ tasks,
      ((applyUpd U t).column_id == tCol) =
        (t.id == tid || (t.column_id == tCol && t.id != tid)) := by
    intro t ht
    by_cases hid : t.id = tid
    · have hteq : t = task := List.inj_on_of_nodup_map hnd ht htmem (hid.trans htid.symm)
      subst hteq
      rw [hfd]
      simp [hid]
    · rw [applyUpd_col_preserved tasks tid U hnd hsound t ht hid]
      have h1 : (t.id == tid) = false := by simp [hid]
      have h2 : (t.id != tid) = true := by simp [hid]
      rw [h1, h2, Bool.false_or, Bool.and_true]
  have e1 : (tasks.map (applyUpd U)).filter (fun t => t.column_id == tCol) =
      (tasks.filter (fun t =>
        t.id == tid || (t.column_id == tCol && t.id != tid))).map (applyUpd U) := by
    rw [List.filter_map]
    exact congrArg (List.map (applyUpd U)) (List.filter_congr (fun x hx => by
      simpa [Function.comp] using hQf x hx))
  have e3 : (tasks.filter (fun t =>
      t.id == tid || (t.column_id == tCol && t.id != tid))).Perm (task :: targetRaw) := by
    have hx := filter_or_perm (fun t => t.id == tid)
      (fun t => t.column_id == tCol && t.id != tid) tasks (by
        intro a _ hc
        obtain ⟨h1, h2⟩ := hc
        rw [beq_iff_eq] at h1
        rw [Bool.and_eq_true, bne_iff_ne] at h2
        exact h2.2 h1)
    rw [filter_id_singleton tasks tid task hfind hnd, ← hTR] at hx
    exact hx
  have e4 : ((tasks.map (applyUpd U)).filter (fun t => t.column_id == tCol)).Perm
      (applyUpd U task :: (targetRaw.map (applyUpd U))) := by
    rw [e1]
    exact e3.map (applyUpd U)
  have hsegAll : (tk ++ dM :: dr).map (applyUpd U) = reindexT tid tCol 0 (tk ++ dM :: dr) := by
    rw [hU]
    exact map_applyUpd_targetUpds tid tCol (tk ++ dM :: dr) 0 rest hndSp hrestSp
  have hsegSuf : (dM :: dr).map (applyUpd U) =
      reindexT tid tCol (0 + tk.length) (dM :: dr) := by
    rw [hU]
    exact map_applyUpd_targetUpds_seg tid tCol tk (dM :: dr) 0 rest hndSp hrestSp
  have hsegTk : tk.map (applyUpd U) = reindexT tid tCol 0 tk := by
    have h1 : tk.map (applyUpd U) ++ (dM :: dr).map (applyUpd U) =
        reindexT tid tCol 0 tk ++ reindexT tid tCol (0 + tk.length) (dM :: dr) := by
      rw [← List.map_append, hsegAll, reindexT_append]
    exact (List.append_inj h1 (by rw [List.length_map, reindexT_length])).1
  have hsegDr : dr.map (applyUpd U) = reindexT tid tCol (0 + tk.length + 1) dr := by
    have h1 := hsegSuf
    rw [List.map_cons, reindexT_cons, if_pos hdMid] at h1
    injection h1
  have hposTk : (tk.map (applyUpd U)).map (fun t => t.position) = List.range' 0 tk.length := by
    rw [hsegTk, reindexT_positions]
  have hposDr : (dr.map (applyUpd U)).map (fun t => t.position) =
      List.range' (tk.length + 1) dr.length := by
    rw [hsegDr, reindexT_positions]
    congr 1
    omega
  have hposTask : (applyUpd U task).position = tk.length := by
    rw [hfd]
    simp
  have e5 : (targetRaw.map (applyUpd U)).Perm
      (tk.map (applyUpd U) ++ dr.map (applyUpd U)) := by
    have h1 : targetRaw.Perm (tk ++ dr) := by
      rw [hTKDR, hTS]
      exact (sortByPos_perm targetRaw).symm
    have h2 := h1.map (applyUpd U)
    rw [List.map_append] at h2
    exact h2
  have e6 : (((tasks.map (applyUpd U)).filter (fun t => t.column_id == tCol)).map
      (fun t => t.position)).Perm
      (tk.length :: (List.range' 0 tk.length ++ List.range' (tk.length + 1) dr.length)) := by
    have h1 := e4.map (fun t => t.position)
    rw [List.map_cons, hposTask] at h1
    refine h1.trans (List.Perm.cons tk.length ?_)
    have h2 := e5.map (fun t => t.position)
    rw [List.map_append, hposTk, hposDr] at h2
    exact h2
  have e7 : (tk.length ::
      (List.range' 0 tk.length ++ List.range' (tk.length + 1) dr.length)).Perm
      (List.range' 0 (tk.length + dr.length + 1)) := by
    have h1 : (List.range' 0 tk.length ++
        tk.length :: List.range' (tk.length + 1) dr.length).Perm
        (tk.length :: (List.range' 0 tk.length ++ List.range' (tk.length + 1) dr.length)) :=
      List.perm_middle
    refine h1.symm.trans ?_
    have h2 : tk.length :: List.range' (tk.length + 1) dr.length =
        List.range' tk.length (dr.length + 1) := by
      rw [List.range'_succ]
    rw [h2]
    have h3 := List.range'_append 0 tk.length (dr.length + 1) 1
    rw [one_mul, zero_add] at h3
    rw [h3]
    have h4 : dr.length + 1 + tk.length = tk.length + dr.length + 1 := by omega
    rw [h4]
  unfold dense
  have hlen : ((tasks.map (applyUpd U)).filter (fun t => t.column_id == tCol)).length =
      tk.length + dr.length + 1 := by
    have h1 := (e6.trans e7).length_eq
    rw [List.length_map, List.length_range'] at h1
    exact h1
  rw [hlen, List.range_eq_range']
  exact e6.trans e7

/-! ### Density of the source column after applying the move updates -/

theorem dense_source_core (tasks srcRaw srcSorted : List Task) (task : Task)
    (pre U : List Upd) (tid tCol srcCol : Nat)
    (hnd : (tasks.map (fun t => t.id)).Nodup)
    (hfind : tasks.find? (fun t => t.id == tid) = some task)
    (hne : srcCol ≠ tCol)
    (hSR : srcRaw = tasks.filter (fun t => t.column_id == srcCol && t.id != tid))
    (hSS : srcSorted = sortByPos srcRaw)
    (hU : U = pre ++ sourceUpds 0 srcSorted)
    (hpre : ∀ u ∈ pre, ∀ s ∈ srcSorted, u.id ≠ s.id)
    (hsound : ∀ u ∈ U, u.id = tid ∨ ∃ s ∈ tasks, s.id = u.id ∧ s.column_id = u.column_id)
    (hdragCol : (applyUpd U task).column_id = tCol) :
    dense ((tasks.map (applyUpd U)).filter (fun t => t.column_id == srcCol)) := by
  have htid : task.id = tid := by simpa using List.find?_some hfind
  have htmem : task ∈ tasks := List.mem_of_find?_eq_some hfind
  have hSRfacts : ∀ s ∈ srcRaw, s ∈ tasks ∧ s.column_id = srcCol ∧ s.id ≠ tid := by
    intro s hs
    rw [hSR, List.mem_filter] at hs
    obtain ⟨h1, h2⟩ := hs
    rw [Bool.and_eq_true, beq_iff_eq, bne_iff_ne] at h2
    exact ⟨h1, h2.1, h2.2⟩
  have hSSsub : ∀ s ∈ srcSorted, s ∈ srcRaw := by
    intro s hs
    rw [hSS] at hs
    exact (sortByPos_perm srcRaw).subset hs
  have hndSR : (srcRaw.map (fun t => t.id)).Nodup := by
    rw [hSR]
    exact nodup_ids_filter tasks _ hnd
  have hndSS : (srcSorted.map (fun t => t.id)).Nodup := by
    rw [hSS]
    exact (((sortByPos_perm srcRaw).map (fun t => t.id)).symm).nodup hndSR
  have hQf : ∀ t ∈ tasks,
      ((applyUpd U t).column_id == srcCol) = (t.column_id == srcCol && t.id != tid) := by
    intro t ht
    by_cases hid : t.id = tid
    · have hteq : t = task := List.inj_on_of_nodup_map hnd ht htmem (hid.trans htid.symm)
      rw [hteq, hdragCol]
      have h1 : (tCol == srcCol) = false := by simp [Ne.symm hne]
      have h2 : (task.id != tid) = false := by simp [htid]
      rw [h1, h2, Bool.and_false]
    · rw [applyUpd_col_preserved tasks tid U hnd hsound t ht hid]
      have h2 : (t.id != tid) = true := by simp [hid]
      rw [h2, Bool.and_true]
  have e1 : (tasks.map (applyUpd U)).filter (fun t => t.column_id == srcCol) =
      srcRaw.map (applyUpd U) := by
    rw [List.filter_map, hSR]
    exact congrArg (List.map (applyUpd U)) (List.filter_congr (fun x hx => by
      simpa [Function.comp] using hQf x hx))
  have hskip : srcSorted.map (applyUpd U) =
      srcSorted.map (applyUpd (sourceUpds 0 srcSorted)) := by
    rw [hU]
    exact List.map_congr_left (fun s hs =>
      applyUpd_append_ne pre (sourceUpds 0 srcSorted) s (fun u hu => hpre u hu s hs))
  have hSSne : ∀ s ∈ srcSorted, s.id ≠ tid := fun s hs => (hSRfacts s (hSSsub s hs)).2.2
  have hseg : srcSorted.map (applyUpd (sourceUpds 0 srcSorted)) =
      reindexT tid tCol 0 srcSorted := by
    rw [sourceUpds_eq_targetUpds tid tCol srcSorted 0 hSSne]
    have h0 := map_applyUpd_targetUpds tid tCol srcSorted 0 [] hndSS
      (by intro u hu; simp at hu)
    rw [List.append_nil] at h0
    exact h0
  have e2 : (srcRaw.map (applyUpd U)).Perm (reindexT tid tCol 0 srcSorted) := by
    have h1 : srcRaw.Perm srcSorted := by
      rw [hSS]
      exact (sortByPos_perm srcRaw).symm
    have h2 := h1.map (applyUpd U)
    rw [hskip, hseg] at h2
    exact h2
  unfold dense
  have e3 : (((tasks.map (applyUpd U)).filter (fun t => t.column_id == srcCol)).map
      (fun t => t.position)).Perm (List.range' 0 srcSorted.length) := by
    have h1 := e2.map (fun t => t.position)
    rw [reindexT_positions] at h1
    rw [e1]
    exact h1
  have hlen : ((tasks.map (applyUpd U)).filter (fun t => t.column_id == srcCol)).length =
      srcSorted.length := by
    have h1 := e3.length_eq
    rw [List.length_map, List.length_range'] at h1
    exact h1
  rw [hlen, List.range_eq_range']
  exact e3

/-! ### Unfolding lemmas for moveUpdates, moveTask and reorderColumns -/

theorem moveUpdates_within (tasks : List Task) (task : Task) (tid tCol tPos : Nat)
    (h : task.column_id = tCol) :
    moveUpdates tasks task tid tCol tPos =
      targetUpds tid tCol 0
        (splice (sortByPos (tasks.filter (fun t => t.column_id == tCol && t.id != tid))) tPos
          { task with column_id := tCol }) := by
  simp only [moveUpdates]
  rw [if_pos (by simp [h])]

theorem moveUpdates_cross (tasks : List Task) (task : Task) (tid tCol tPos : Nat)
    (h : task.column_id ≠ tCol) :
    moveUpdates tasks task tid tCol tPos =
      targetUpds tid tCol 0
        (splice (sortByPos (tasks.filter (fun t => t.column_id == tCol && t.id != tid))) tPos
          { task with column_id := tCol }) ++
        sourceUpds 0
          (sortByPos (tasks.filter (fun t => t.column_id == task.column_id && t.id != tid))) := by
  simp only [moveUpdates]
  rw [if_neg (by simp [h])]

theorem moveTask_success_parts (uid : Nat) (tasks : List Task) (tid tCol tPos : Nat)
    (task : Task) (hfind : tasks.find? (fun t => t.id == tid) = some task) :
    (moveTask (some uid) tasks tid tCol tPos true).tasks =
      tasks.map (applyUpd (moveUpdates tasks task tid tCol tPos)) ∧
    (moveTask (some uid) tasks tid tCol tPos true).ret = true ∧
    (moveTask (some uid) tasks tid tCol tPos true).calls =
      [(moveUpdates tasks task tid tCol tPos).map
        (fun u => ⟨u.id, uid, task.page_id, u.column_id, u.position⟩)] := by
  unfold moveTask
  rw [hfind]
  exact ⟨rfl, rfl, rfl⟩

theorem moveTask_failure_parts (uid : Nat) (tasks : List Task) (tid tCol tPos : Nat)
    (task : Task) (hfind : tasks.find? (fun t => t.id == tid) = some task) :
    (moveTask (some uid) tasks tid tCol tPos false).tasks = tasks ∧
    (moveTask (some uid) tasks tid tCol tPos false).ret = false ∧
    (moveTask (some uid) tasks tid tCol tPos false).calls =
      [(moveUpdates tasks task tid tCol tPos).map
        (fun u => ⟨u.id, uid, task.page_id, u.column_id, u.position⟩)] := by
  unfold moveTask
  rw [hfind]
  exact ⟨rfl, rfl, rfl⟩

theorem reorderColumns_none_eq (cols : List Column) (cid newPos : Nat) (persistOk : Bool)
    (h : cols.findIdx? (fun c => c.id == cid) = none) :
    reorderColumns cols cid newPos persistOk = ⟨cols, false, []⟩ := by
  unfold reorderColumns
  rw [h]

theorem reorderColumns_success_eq (cols : List Column) (cid newPos i : Nat) (col : Column)
    (h : cols.findIdx? (fun c => c.id == cid) = some i) (h2 : cols[i]? = some col) :
    reorderColumns cols cid newPos true =
      ⟨reindexCols 0 (splice (cols.take i ++ cols.drop (i + 1)) newPos col), true,
        [(reindexCols 0 (splice (cols.take i ++ cols.drop (i + 1)) newPos col)).map
          (fun c => ⟨c.id, c.page_id, c.title, c.color, c.position⟩)]⟩ := by
  unfold reorderColumns
  simp only [h, h2]
  rfl

theorem reorderColumns_failure_eq (cols : List Column) (cid newPos i : Nat) (col : Column)
    (h : cols.findIdx? (fun c => c.id == cid) = some i) (h2 : cols[i]? = some col) :
    reorderColumns cols cid newPos false =
      ⟨cols, false,
        [(reindexCols 0 (splice (cols.take i ++ cols.drop (i + 1)) newPos col)).map
          (fun c => ⟨c.id, c.page_id, c.title, c.color, c.position⟩)]⟩ := by
  unfold reorderColumns
  simp only [h, h2]
  rfl

theorem reindexCols_length (cols : List Column) :
    ∀ (i : Nat), (reindexCols i cols).length = cols.length := by
  induction cols with
  | nil => intro i; rfl
  | cons c cs ih =>
    intro i
    unfold reindexCols
    rw [List.length_cons, List.length_cons, ih (i + 1)]

theorem reindexCols_positions (cols : List Column) :
    ∀ (i : Nat), (reindexCols i cols).map (fun c => c.position) = List.range' i cols.length := by
  induction cols with
  | nil => intro i; rfl
  | cons c cs ih =>
    intro i
    unfold reindexCols
    rw [List.map_cons, List.length_cons, List.range'_succ, ih (i + 1)]

/-! ### Density of both affected columns after a successful moveTask -/

theorem moveTask_target_dense (uid : Nat) (tasks : List Task) (tid tCol tPos : Nat)
    (task : Task) (hnd : (tasks.map (fun t => t.id)).Nodup)
    (hfind : tasks.find? (fun t => t.id == tid) = some task) :
    dense (((moveTask (some uid) tasks tid tCol tPos true).tasks).filter
      (fun t => t.column_id == tCol)) := by
  have htid : task.id = tid := by simpa using List.find?_some hfind
  rw [(moveTask_success_parts uid tasks tid tCol tPos task hfind).1]
  by_cases hcol : task.column_id = tCol
  · refine dense_target_core tasks _ _ _ _ task _ [] _ tid tCol tPos hnd hfind
      rfl rfl rfl rfl rfl ?_ ?_ ?_
    · rw [moveUpdates_within tasks task tid tCol tPos hcol, List.append_nil]
      rfl
    · intro u hu
      simp at hu
    · intro u hu
      simp at hu
  · refine dense_target_core tasks _ _ _ _ task _
      (sourceUpds 0
        (sortByPos (tasks.filter (fun t => t.column_id == task.column_id && t.id != tid))))
      _ tid tCol tPos hnd hfind rfl rfl rfl rfl rfl ?_ ?_ ?_
    · rw [moveUpdates_cross tasks task tid tCol tPos hcol]
      rfl
    · intro u hu s hs heq
      obtain ⟨s0, hs0, hs0i, _, _⟩ := sourceUpds_origin
        (sortByPos (tasks.filter (fun t => t.column_id == task.column_id && t.id != tid)))
        0 u hu
      have hs0r := (sortByPos_perm _).subset hs0
      rw [List.mem_filter] at hs0r
      obtain ⟨hs0t, hcond⟩ := hs0r
      rw [Bool.and_eq_true, beq_iff_eq, bne_iff_ne] at hcond
      rw [List.mem_append, List.mem_cons] at hs
      rcases hs with hs | hs | hs
      · have hsr := (sortByPos_perm
          (tasks.filter (fun t => t.column_id == tCol && t.id != tid))).subset
          (List.take_subset _ _ hs)
        rw [List.mem_filter] at hsr
        obtain ⟨hst, hc⟩ := hsr
        rw [Bool.and_eq_true, beq_iff_eq, bne_iff_ne] at hc
        have hss : s0 = s := List.inj_on_of_nodup_map hnd hs0t hst (hs0i.trans heq)
        exact hcol (by rw [← hcond.1, hss]; exact hc.1)
      · exact hcond.2 (hs0i.trans (heq.trans (by rw [hs]; exact htid)))
      · have hsr := (sortByPos_perm
          (tasks.filter (fun t => t.column_id == tCol && t.id != tid))).subset
          (List.drop_subset _ _ hs)
        rw [List.mem_filter] at hsr
        obtain ⟨hst, hc⟩ := hsr
        rw [Bool.and_eq_true, beq_iff_eq, bne_iff_ne] at hc
        have hss : s0 = s := List.inj_on_of_nodup_map hnd hs0t hst (hs0i.trans heq)
        exact hcol (by rw [← hcond.1, hss]; exact hc.1)
    · intro u hu
      obtain ⟨s0, hs0, hs0i, _, hsc⟩ := sourceUpds_origin
        (sortByPos (tasks.filter (fun t => t.column_id == task.column_id && t.id != tid)))
        0 u hu
      have hs0r := (sortByPos_perm _).subset hs0
      rw [List.mem_filter] at hs0r
      exact ⟨s0, hs0r.1, hs0i, hsc⟩

theorem moveTask_source_dense (uid : Nat) (tasks : List Task) (tid tCol tPos : Nat)
    (task : Task) (hnd : (tasks.map (fun t => t.id)).Nodup)
    (hfind : tasks.find? (fun t => t.id == tid) = some task) :
    dense (((moveTask (some uid) tasks tid tCol tPos true).tasks).filter
      (fun t => t.column_id == task.column_id)) := by
  have htid : task.id = tid := by simpa using List.find?_some hfind
  by_cases hcol : task.column_id = tCol
  · rw [hcol]
    exact moveTask_target_dense uid tasks tid tCol tPos task hnd hfind
  · rw [(moveTask_success_parts uid tasks tid tCol tPos task hfind).1]
    have htkne : ∀ s ∈ (sortByPos
        (tasks.filter (fun t => t.column_id == tCol && t.id != tid))).take tPos,
        s.id ≠ tid := by
      intro s hs
      have hsr := (sortByPos_perm
        (tasks.filter (fun t => t.column_id == tCol && t.id != tid))).subset
        (List.take_subset _ _ hs)
      rw [List.mem_filter] at hsr
      obtain ⟨_, hc⟩ := hsr
      rw [Bool.and_eq_true, beq_iff_eq, bne_iff_ne] at hc
      exact hc.2
    refine dense_source_core tasks _ _ task
      (targetUpds tid tCol 0
        (splice (sortByPos (tasks.filter (fun t => t.column_id == tCol && t.id != tid))) tPos
          { task with column_id := tCol }))
      _ tid tCol task.column_id hnd hfind hcol rfl rfl ?_ ?_ ?_ ?_
    · rw [moveUpdates_cross tasks task tid tCol tPos hcol]
    · intro u hu s hs heq
      obtain ⟨s1, hs1, hu1⟩ := targetUpds_ids tid tCol
        (splice (sortByPos (tasks.filter (fun t => t.column_id == tCol && t.id != tid))) tPos
          { task with column_id := tCol }) 0 u hu
      have hsrc := (sortByPos_perm
        (tasks.filter (fun t => t.column_id == task.column_id && t.id != tid))).subset hs
      rw [List.mem_filter] at hsrc
      obtain ⟨hst, hc⟩ := hsrc
      rw [Bool.and_eq_true, beq_iff_eq, bne_iff_ne] at hc
      rw [mem_splice_iff] at hs1
      rcases hs1 with hs1 | hs1
      · apply hc.2
        rw [← heq, hu1, hs1]
        exact htid
      · have h2 := (sortByPos_perm
          (tasks.filter (fun t => t.column_id == tCol && t.id != tid))).subset hs1
        rw [List.mem_filter] at h2
        obtain ⟨h2t, h2c⟩ := h2
        rw [Bool.and_eq_true, beq_iff_eq, bne_iff_ne] at h2c
        have hss : s1 = s := List.inj_on_of_nodup_map hnd h2t hst (hu1.symm.trans heq)
        exact hcol (by rw [← hc.1, ← hss]; exact h2c.1)
    · intro u hu
      rw [moveUpdates_cross tasks task tid tCol tPos hcol, List.mem_append] at hu
      rcases hu with hu | hu
      · by_cases hid : u.id = tid
        · exact Or.inl hid
        · obtain ⟨s1, hs1, hs1i, _, hs1c⟩ := targetUpds_origin tid tCol _ 0 u hu hid
          rw [mem_splice_iff] at hs1
          rcases hs1 with hs1 | hs1
          · exact absurd (hs1i.symm.trans (by rw [hs1]; exact htid)) hid
          · have h2 := (sortByPos_perm
              (tasks.filter (fun t => t.column_id == tCol && t.id != tid))).subset hs1
            rw [List.mem_filter] at h2
            exact Or.inr ⟨s1, h2.1, hs1i, hs1c⟩
      · obtain ⟨s0, hs0, hs0i, _, hsc⟩ := sourceUpds_origin _ 0 u hu
        have hs0r := (sortByPos_perm
          (tasks.filter (fun t => t.column_id == task.column_id && t.id != tid))).subset hs0
        rw [List.mem_filter] at hs0r
        exact Or.inr ⟨s0, hs0r.1, hs0i, hsc⟩
    · rw [moveUpdates_cross tasks task tid tCol tPos hcol]
      rw [show (splice (sortByPos
          (tasks.filter (fun t => t.column_id == tCol && t.id != tid))) tPos
          { task with column_id := tCol }) =
        ((sortByPos (tasks.filter (fun t => t.column_id == tCol && t.id != tid))).take tPos ++
          { task with column_id := tCol } ::
            (sortByPos (tasks.filter (fun t => t.column_id == tCol && t.id != tid))).drop tPos)
        from rfl]
      rw [applyUpd_dragged tid tCol _ _ { task with column_id := tCol } task 0 _
        htid htid htkne]

theorem reorderColumns_dense (cols : List Column) (cid newPos : Nat)
    (hret : (reorderColumns cols cid newPos true).ret = true) :
    ((reorderColumns cols cid newPos true).columns.map (fun c => c.position)).Perm
      (List.range ((reorderColumns cols cid newPos true).columns.length)) := by
  cases h1 : cols.findIdx? (fun c => c.id == cid) with
  | none =>
    rw [reorderColumns_none_eq cols cid newPos true h1] at hret
    simp at hret
  | some i =>
    cases h2 : cols[i]? with
    | none =>
      have h3 : reorderColumns cols cid newPos true = ⟨cols, false, []⟩ := by
        unfold reorderColumns
        simp only [h1, h2]
      rw [h3] at hret
      simp at hret
    | some col =>
      rw [reorderColumns_success_eq cols cid newPos i col h1 h2]
      rw [reindexCols_positions, reindexCols_length, List.range_eq_range']

/-! ### Claim theorems -/

/-- C1: from every starting state with unique ids (position gaps allowed),
after every completed, non-rolled-back structural operation — a successful
moveTask, within or across columns, and a successful reorderColumns — each
affected group's multiset of positions is exactly 0, 1, ..., n-1: both the
destination column and the moved task's source column are dense, and the
reordered column list's positions are a permutation of the range of its
length. -/
theorem C1_dense_after_structural_ops :
    (∀ (uid : Nat) (tasks : List Task) (tid tCol tPos : Nat) (task : Task),
      (tasks.map (fun t => t.id)).Nodup →
      tasks.find? (fun t => t.id == tid) = some task →
      dense (((moveTask (some uid) tasks tid tCol tPos true).tasks).filter
        (fun t => t.column_id == tCol)) ∧
      dense (((moveTask (some uid) tasks tid tCol tPos true).tasks).filter
        (fun t => t.column_id == task.column_id))) ∧
    (∀ (cols : List Column) (cid newPos : Nat),
      (reorderColumns cols cid newPos true).ret = true →
      ((reorderColumns cols cid newPos true).columns.map (fun c => c.position)).Perm
        (List.range ((reorderColumns cols cid newPos true).columns.length))) := by
  constructor
  · intro uid tasks tid tCol tPos task hnd hfind
    exact ⟨moveTask_target_dense uid tasks tid tCol tPos task hnd hfind,
      moveTask_source_dense uid tasks tid tCol tPos task hnd hfind⟩
  · intro cols cid newPos hret
    exact reorderColumns_dense cols cid newPos hret

/-- Witness for C1: a concrete cross-column move from a gapped state (tasks
at positions 5 and 9 in column 1, one task at position 3 in column 2) and a
concrete column reorder. -/
theorem C1_dense_after_structural_ops_witness :
    (dense (((moveTask (some 9)
        [⟨1, 7, 1, 5, false, "T"⟩, ⟨2, 7, 1, 9, false, "U"⟩, ⟨3, 7, 2, 3, false, "V"⟩]
        1 2 1 true).tasks).filter (fun t => t.column_id == 2)) ∧
      dense (((moveTask (some 9)
        [⟨1, 7, 1, 5, false, "T"⟩, ⟨2, 7, 1, 9, false, "U"⟩, ⟨3, 7, 2, 3, false, "V"⟩]
        1 2 1 true).tasks).filter
          (fun t => t.column_id == (⟨1, 7, 1, 5, false, "T"⟩ : Task).column_id))) ∧
    (((reorderColumns [⟨1, 7, "A", "c", 0⟩, ⟨2, 7, "B", "c", 1⟩, ⟨3, 7, "C", "c", 2⟩]
        2 2 true).columns.map (fun c => c.position)).Perm
      (List.range ((reorderColumns [⟨1, 7, "A", "c", 0⟩, ⟨2, 7, "B", "c", 1⟩,
        ⟨3, 7, "C", "c", 2⟩] 2 2 true).columns.length))) := by
  refine ⟨C1_dense_after_structural_ops.1 9
    [⟨1, 7, 1, 5, false, "T"⟩, ⟨2, 7, 1, 9, false, "U"⟩, ⟨3, 7, 2, 3, false, "V"⟩]
    1 2 1 ⟨1, 7, 1, 5, false, "T"⟩ (by decide) (by decide),
    C1_dense_after_structural_ops.2
      [⟨1, 7, "A", "c", 0⟩, ⟨2, 7, "B", "c", 1⟩, ⟨3, 7, "C", "c", 2⟩] 2 2 (by decide)⟩

/-- C3: when the batched persistence call of a single-task moveTask fails,
the store is restored exactly to the pre-move snapshot and false is
returned; likewise for reorderColumns; and on the concrete group
A at 0, B at 1, C at 2, moving A to index 2 with persistence succeeding
yields B at 0, C at 1, A at 2 optimistically. -/
theorem C3_rollback_restores_snapshot :
    (∀ (uid : Nat) (tasks : List Task) (tid tCol tPos : Nat) (task : Task),
      tasks.find? (fun t => t.id == tid) = some task →
      (moveTask (some uid) tasks tid tCol tPos false).tasks = tasks ∧
      (moveTask (some uid) tasks tid tCol tPos false).ret = false) ∧
    (∀ (cols : List Column) (cid newPos : Nat),
      (reorderColumns cols cid newPos false).columns = cols ∧
      (reorderColumns cols cid newPos false).ret = false) ∧
    ((moveTask (some 9)
        [⟨1, 7, 10, 0, false, "A"⟩, ⟨2, 7, 10, 1, false, "B"⟩, ⟨3, 7, 10, 2, false, "C"⟩]
        1 10 2 true).tasks.map (fun t => (t.id, t.position)) = [(1, 2), (2, 0), (3, 1)]) ∧
    ((moveTask (some 9)
        [⟨1, 7, 10, 0, false, "A"⟩, ⟨2, 7, 10, 1, false, "B"⟩, ⟨3, 7, 10, 2, false, "C"⟩]
        1 10 2 false).tasks =
      [⟨1, 7, 10, 0, false, "A"⟩, ⟨2, 7, 10, 1, false, "B"⟩, ⟨3, 7, 10, 2, false, "C"⟩]) := by
  refine ⟨?_, ?_, by decide, by decide⟩
  · intro uid tasks tid tCol tPos task hfind
    exact ⟨(moveTask_failure_parts uid tasks tid tCol tPos task hfind).1,
      (moveTask_failure_parts uid tasks tid tCol tPos task hfind).2.1⟩
  · intro cols cid newPos
    cases h1 : cols.findIdx? (fun c => c.id == cid) with
    | none =>
      rw [reorderColumns_none_eq cols cid newPos false h1]
      exact ⟨rfl, rfl⟩
    | some i =>
      cases h2 : cols[i]? with
      | none =>
        have h3 : reorderColumns cols cid newPos false = ⟨cols, false, []⟩ := by
          unfold reorderColumns
          simp only [h1, h2]
        rw [h3]
        exact ⟨rfl, rfl⟩
      | some col =>
        rw [reorderColumns_failure_eq cols cid newPos i col h1 h2]
        exact ⟨rfl, rfl⟩

/-- Witness for C3: a failing move of A in the concrete group A at 0, B at 1,
C at 2 reverts to exactly the original state and returns false, and a failing
column reorder reverts as well. -/
theorem C3_rollback_restores_snapshot_witness :
    ((moveTask (some 9)
        [⟨1, 7, 10, 0, false, "A"⟩, ⟨2, 7, 10, 1, false, "B"⟩, ⟨3, 7, 10, 2, false, "C"⟩]
        1 10 2 false).tasks =
      [⟨1, 7, 10, 0, false, "A"⟩, ⟨2, 7, 10, 1, false, "B"⟩, ⟨3, 7, 10, 2, false, "C"⟩] ∧
     (moveTask (some 9)
        [⟨1, 7, 10, 0, false, "A"⟩, ⟨2, 7, 10, 1, false, "B"⟩, ⟨3, 7, 10, 2, false, "C"⟩]
        1 10 2 false).ret = false) ∧
    ((reorderColumns [⟨1, 7, "A", "c", 0⟩, ⟨2, 7, "B", "c", 1⟩, ⟨3, 7, "C", "c", 2⟩]
        2 0 false).columns =
      [⟨1, 7, "A", "c", 0⟩, ⟨2, 7, "B", "c", 1⟩, ⟨3, 7, "C", "c", 2⟩] ∧
     (reorderColumns [⟨1, 7, "A", "c", 0⟩, ⟨2, 7, "B", "c", 1⟩, ⟨3, 7, "C", "c", 2⟩]
        2 0 false).ret = false) :=
  ⟨C3_rollback_restores_snapshot.1 9
      [⟨1, 7, 10, 0, false, "A"⟩, ⟨2, 7, 10, 1, false, "B"⟩, ⟨3, 7, 10, 2, false, "C"⟩]
      1 10 2 ⟨1, 7, 10, 0, false, "A"⟩ (by decide),
    C3_rollback_restores_snapshot.2.1
      [⟨1, 7, "A", "c", 0⟩, ⟨2, 7, "B", "c", 1⟩, ⟨3, 7, "C", "c", 2⟩] 2 0⟩

/-- C7: whenever the pointer-containment pass yields at least one collision
whose droppable has type task, customCollisionDetection returns exactly that
single task collision (the first task-typed one), never a column. -/
theorem C7_task_collision_priority :
    ∀ (pcs rcs : List Collision) (c : Collision),
      pcs.find? (fun x => x.kind == DropKind.task) = some c →
      customCollisionDetection pcs rcs = [c] ∧ c.kind = DropKind.task := by
  intro pcs rcs c hfind
  have hmem : c ∈ pcs := List.mem_of_find?_eq_some hfind
  have hkind : c.kind = DropKind.task := by simpa using List.find?_some hfind
  refine ⟨?_, hkind⟩
  unfold customCollisionDetection
  rw [if_pos (List.length_pos.mpr (List.ne_nil_of_mem hmem)), hfind]

/-- Witness for C7: the pointer is inside both a column region and a task
row; the resolver returns the task row alone. -/
theorem C7_task_collision_priority_witness :
    customCollisionDetection
      [⟨5, DropKind.column⟩, ⟨9, DropKind.task⟩] [⟨3, DropKind.other⟩] =
      [⟨9, DropKind.task⟩] ∧ (⟨9, DropKind.task⟩ : Collision).kind = DropKind.task :=
  C7_task_collision_priority [⟨5, DropKind.column⟩, ⟨9, DropKind.task⟩]
    [⟨3, DropKind.other⟩] ⟨9, DropKind.task⟩ (by decide)

theorem forall₂_map_self {α β : Type} (R : α → β → Prop) (f : α → β) (l : List α)
    (h : ∀ a ∈ l, R a (f a)) : List.Forall₂ R l (l.map f) := by
  induction l with
  | nil => exact List.Forall₂.nil
  | cons a l ih =>
    rw [List.map_cons]
    exact List.Forall₂.cons (h a (List.mem_cons_self a l))
      (ih (fun x hx => h x (List.mem_cons_of_mem a hx)))

/-- C10: every row of the moveTask upsert payload — including rows for
sibling tasks — carries the dragged task's page_id (and the calling user's
id), while the optimistic local update leaves every task's id, page_id,
soft-delete flag and title unchanged, altering only position and column_id;
hence a sibling row's page_id agrees with that sibling's stored page_id
exactly when the sibling already shares the dragged task's page_id. -/
theorem C10_payload_page_id_and_frame :
    ∀ (uid : Nat) (tasks : List Task) (tid tCol tPos : Nat) (task : Task),
      tasks.find? (fun t => t.id == tid) = some task →
      (∀ call ∈ (moveTask (some uid) tasks tid tCol tPos true).calls,
        ∀ row ∈ call, row.page_id = task.page_id ∧ row.user_id = uid) ∧
      List.Forall₂ (fun t t' => t'.id = t.id ∧ t'.page_id = t.page_id ∧
          t'.is_deleted = t.is_deleted ∧ t'.title = t.title)
        tasks (moveTask (some uid) tasks tid tCol tPos true).tasks ∧
      (∀ call ∈ (moveTask (some uid) tasks tid tCol tPos true).calls,
        ∀ row ∈ call, ∀ s ∈ tasks, s.id = row.id →
          (row.page_id = s.page_id ↔ s.page_id = task.page_id)) := by
  intro uid tasks tid tCol tPos task hfind
  obtain ⟨htasks, _, hcalls⟩ := moveTask_success_parts uid tasks tid tCol tPos task hfind
  have hrow : ∀ call ∈ (moveTask (some uid) tasks tid tCol tPos true).calls,
      ∀ row ∈ call, row.page_id = task.page_id ∧ row.user_id = uid := by
    intro call hcall row hrowm
    rw [hcalls, List.mem_singleton] at hcall
    subst hcall
    rw [List.mem_map] at hrowm
    obtain ⟨u, _, he⟩ := hrowm
    rw [← he]
    exact ⟨rfl, rfl⟩
  refine ⟨hrow, ?_, ?_⟩
  · rw [htasks]
    exact forall₂_map_self _ _ tasks
      (fun t _ => applyUpd_frame (moveUpdates tasks task tid tCol tPos) t)
  · intro call hcall row hrowm s _ _
    rw [(hrow call hcall row hrowm).1]
    exact eq_comm

/-- Witness for C10: a concrete cross-column move with two pages involved. -/
theorem C10_payload_page_id_and_frame_witness :
    (∀ call ∈ (moveTask (some 9)
        [⟨1, 7, 1, 0, false, "T"⟩, ⟨2, 8, 2, 0, false, "V"⟩] 1 2 1 true).calls,
      ∀ row ∈ call, row.page_id = (⟨1, 7, 1, 0, false, "T"⟩ : Task).page_id ∧
        row.user_id = 9) ∧
    List.Forall₂ (fun t t' => t'.id = t.id ∧ t'.page_id = t.page_id ∧
        t'.is_deleted = t.is_deleted ∧ t'.title = t.title)
      ([⟨1, 7, 1, 0, false, "T"⟩, ⟨2, 8, 2, 0, false, "V"⟩] : List Task)
      (moveTask (some 9) [⟨1, 7, 1, 0, false, "T"⟩, ⟨2, 8, 2, 0, false, "V"⟩]
        1 2 1 true).tasks ∧
    (∀ call ∈ (moveTask (some 9)
        [⟨1, 7, 1, 0, false, "T"⟩, ⟨2, 8, 2, 0, false, "V"⟩] 1 2 1 true).calls,
      ∀ row ∈ call, ∀ s ∈ [(⟨1, 7, 1, 0, false, "T"⟩ : Task), ⟨2, 8, 2, 0, false, "V"⟩],
        s.id = row.id →
          (row.page_id = s.page_id ↔ s.page_id = (⟨1, 7, 1, 0, false, "T"⟩ : Task).page_id)) :=
  C10_payload_page_id_and_frame 9
    [⟨1, 7, 1, 0, false, "T"⟩, ⟨2, 8, 2, 0, false, "V"⟩] 1 2 1
    ⟨1, 7, 1, 0, false, "T"⟩ (by decide)

/-- C2 counterexample: with tasks a at index 0 and b at index 1 of column 5
and a dragged over b (drag-down in one column), handleDragOver computes
index 2 for the preview while handleDragEnd commits index 1 — the committed
index is neither the hovered index plus one nor the last preview index. -/
theorem C2_counterexample :
    dragOverTargetIndex
      [⟨1, 7, 5, 0, false, "a"⟩, ⟨2, 7, 5, 1, false, "b"⟩]
      ⟨1, 7, 5, 0, false, "a"⟩ ⟨2, 7, 5, 1, false, "b"⟩ = 2 ∧
    dragEndTargetIndex
      [⟨1, 7, 5, 0, false, "a"⟩, ⟨2, 7, 5, 1, false, "b"⟩]
      ⟨1, 7, 5, 0, false, "a"⟩ ⟨2, 7, 5, 1, false, "b"⟩ = 1 ∧
    dragEndTargetIndex
      [⟨1, 7, 5, 0, false, "a"⟩, ⟨2, 7, 5, 1, false, "b"⟩]
      ⟨1, 7, 5, 0, false, "a"⟩ ⟨2, 7, 5, 1, false, "b"⟩ ≠
    dragOverTargetIndex
      [⟨1, 7, 5, 0, false, "a"⟩, ⟨2, 7, 5, 1, false, "b"⟩]
      ⟨1, 7, 5, 0, false, "a"⟩ ⟨2, 7, 5, 1, false, "b"⟩ := by decide

/-- C2 amended: the index committed by handleDragEnd equals the hovered
task's current index unadjusted in every case (both branches of its
conditional assign the same value), while the drag-over preview alone adds
one in the same-column drag-down case; preview and commit therefore differ
numerically exactly in that case. -/
theorem C2_commit_index_unadjusted :
    (∀ (tasks : List Task) (activeT overT : Task),
      dragEndTargetIndex tasks activeT overT =
        (tasksByColumn tasks overT.column_id).findIdx (fun t => t.id == overT.id)) ∧
    (∀ (tasks : List Task) (activeT overT : Task),
      activeT.column_id = overT.column_id →
      (tasksByColumn tasks activeT.column_id).findIdx (fun t => t.id == activeT.id) <
        (tasksByColumn tasks overT.column_id).findIdx (fun t => t.id == overT.id) →
      dragOverTargetIndex tasks activeT overT =
        (tasksByColumn tasks overT.column_id).findIdx (fun t => t.id == overT.id) + 1) := by
  constructor
  · intro tasks a o
    unfold dragEndTargetIndex
    exact ite_self _
  · intro tasks a o hcol hlt
    have hcondtrue : (a.column_id == o.column_id &&
        decide ((tasksByColumn tasks a.column_id).findIdx (fun t => t.id == a.id) <
          (tasksByColumn tasks o.column_id).findIdx (fun t => t.id == o.id))) = true := by
      simp only [Bool.and_eq_true, beq_iff_eq, decide_eq_true_eq]
      exact ⟨hcol, hlt⟩
    exact if_pos hcondtrue

/-- Witness for C2 amended at the counterexample's inputs. -/
theorem C2_commit_index_unadjusted_witness :
    dragEndTargetIndex
      [⟨1, 7, 5, 0, false, "a"⟩, ⟨2, 7, 5, 1, false, "b"⟩]
      ⟨1, 7, 5, 0, false, "a"⟩ ⟨2, 7, 5, 1, false, "b"⟩ =
      (tasksByColumn [⟨1, 7, 5, 0, false, "a"⟩, ⟨2, 7, 5, 1, false, "b"⟩]
        (⟨2, 7, 5, 1, false, "b"⟩ : Task).column_id).findIdx
        (fun t => t.id == (⟨2, 7, 5, 1, false, "b"⟩ : Task).id) ∧
    dragOverTargetIndex
      [⟨1, 7, 5, 0, false, "a"⟩, ⟨2, 7, 5, 1, false, "b"⟩]
      ⟨1, 7, 5, 0, false, "a"⟩ ⟨2, 7, 5, 1, false, "b"⟩ =
      (tasksByColumn [⟨1, 7, 5, 0, false, "a"⟩, ⟨2, 7, 5, 1, false, "b"⟩]
        (⟨2, 7, 5, 1, false, "b"⟩ : Task).column_id).findIdx
        (fun t => t.id == (⟨2, 7, 5, 1, false, "b"⟩ : Task).id) + 1 :=
  ⟨C2_commit_index_unadjusted.1
      [⟨1, 7, 5, 0, false, "a"⟩, ⟨2, 7, 5, 1, false, "b"⟩]
      ⟨1, 7, 5, 0, false, "a"⟩ ⟨2, 7, 5, 1, false, "b"⟩,
    C2_commit_index_unadjusted.2
      [⟨1, 7, 5, 0, false, "a"⟩, ⟨2, 7, 5, 1, false, "b"⟩]
      ⟨1, 7, 5, 0, false, "a"⟩ ⟨2, 7, 5, 1, false, "b"⟩ (by decide) (by decide)⟩

/-- C5 counterexample: tasks P at 0 and Q at 1 of column 10 are both
selected; dropping P at its own column and position (10, 0) still issues
two persistence calls (the single-task no-op skip applies only when exactly
one task moves), even though the final collection is unchanged. -/
theorem C5_counterexample :
    (List.find? (fun t => t.id == 1)
      ([⟨1, 7, 10, 0, false, "P"⟩, ⟨2, 7, 10, 1, false, "Q"⟩] : List Task) =
      some ⟨1, 7, 10, 0, false, "P"⟩) ∧
    ((⟨1, 7, 10, 0, false, "P"⟩ : Task).column_id = 10 ∧
      (⟨1, 7, 10, 0, false, "P"⟩ : Task).position = 0) ∧
    (handleDragEndMoves (some 9)
      [⟨1, 7, 10, 0, false, "P"⟩, ⟨2, 7, 10, 1, false, "Q"⟩] [1, 2] 1 10 0).2 ≠ [] ∧
    ((handleDragEndMoves (some 9)
      [⟨1, 7, 10, 0, false, "P"⟩, ⟨2, 7, 10, 1, false, "Q"⟩] [1, 2] 1 10 0).2.length = 2) ∧
    ((handleDragEndMoves (some 9)
      [⟨1, 7, 10, 0, false, "P"⟩, ⟨2, 7, 10, 1, false, "Q"⟩] [1, 2] 1 10 0).1 =
      [⟨1, 7, 10, 0, false, "P"⟩, ⟨2, 7, 10, 1, false, "Q"⟩]) := by decide

/-- C5 amended: for a single-task drop (no multi-selection containing the
dragged task), dropping a task at its own current column and position
issues no persistence call and leaves the stored collection unchanged; in a
multi-selection drop the skip does not apply and persistence calls are
still issued. -/
theorem C5_noop_single_drop :
    ∀ (user : Option Nat) (tasks : List Task) (sel : List Nat)
      (dId tCol tPos : Nat) (task : Task),
      (sel.length ≤ 1 ∨ sel.contains dId = false) →
      tasks.find? (fun t => t.id == dId) = some task →
      task.column_id = tCol → task.position = tPos →
      handleDragEndMoves user tasks sel dId tCol tPos = (tasks, []) := by
  intro user tasks sel dId tCol tPos task hsel hfind hc hp
  have hcond : (if sel.length > 1 && sel.contains dId then sel else [dId]) = [dId] := by
    rcases hsel with h | h
    · rw [if_neg]
      simp only [Bool.and_eq_true, decide_eq_true_eq]
      rintro ⟨h1, _⟩
      omega
    · rw [h, Bool.and_false]
      simp
  have hmain : ∀ lst : List Nat, lst = [dId] →
      dragEndLoop user tasks (lst.length == 1) tCol tPos 0 lst tasks [] = (tasks, []) := by
    intro lst hl
    subst hl
    show dragEndLoop user tasks true tCol tPos 0 [dId] tasks [] = (tasks, [])
    unfold dragEndLoop
    simp only [hfind]
    rw [if_pos (by simp [hc, hp])]
    rfl
  exact hmain _ hcond

/-- Witness for C5 amended: single-task no-op drop of P at (10, 0). -/
theorem C5_noop_single_drop_witness :
    handleDragEndMoves (some 9)
      [⟨1, 7, 10, 0, false, "P"⟩, ⟨2, 7, 10, 1, false, "Q"⟩] [1] 1 10 0 =
      ([⟨1, 7, 10, 0, false, "P"⟩, ⟨2, 7, 10, 1, false, "Q"⟩], []) :=
  C5_noop_single_drop (some 9)
    [⟨1, 7, 10, 0, false, "P"⟩, ⟨2, 7, 10, 1, false, "Q"⟩] [1] 1 10 0
    ⟨1, 7, 10, 0, false, "P"⟩ (Or.inl (by decide)) (by decide) (by decide) (by decide)

/-- C6 evaluation at the claim's own scenario: selected tasks P and Q (in
columns at positions 0 and 1 of column 10) dropped at index 2 of column 20
holding R at 0 and S at 1.  Because every moveTask in the drop loop computes
its updates from the stale pre-drop task list, Q is spliced past the end of
the two-element stale target list and receives position 2, colliding with P;
the final target column is R at 0, S at 1, P at 2, Q at 2 — not the claimed
R at 0, S at 1, P at 2, Q at 3. -/
theorem C6_code_bug_eval :
    (((handleDragEndMoves (some 9)
        [⟨1, 7, 10, 0, false, "P"⟩, ⟨2, 7, 10, 1, false, "Q"⟩,
          ⟨3, 7, 20, 0, false, "R"⟩, ⟨4, 7, 20, 1, false, "S"⟩]
        [1, 2] 1 20 2).1.filter (fun t => t.column_id == 20)).map
      (fun t => (t.id, t.position)) = [(1, 2), (2, 2), (3, 0), (4, 1)]) ∧
    ¬ ((((handleDragEndMoves (some 9)
        [⟨1, 7, 10, 0, false, "P"⟩, ⟨2, 7, 10, 1, false, "Q"⟩,
          ⟨3, 7, 20, 0, false, "R"⟩, ⟨4, 7, 20, 1, false, "S"⟩]
        [1, 2] 1 20 2).1.filter (fun t => t.column_id == 20)).map
      (fun t => (t.id, t.position))).Perm [(3, 0), (4, 1), (1, 2), (2, 3)]) := by decide

/-- C9 counterexample: deleteColumn issues a hard delete of the row, not a
soft-delete flag update. -/
theorem C9_counterexample :
    (deleteColumn [⟨1, 7, "A", "c", 0⟩] 1).2 = DeleteKind.hardDelete ∧
    DeleteKind.hardDelete ≠ DeleteKind.softDelete := by decide

/-- C9 amended: deleteTask soft-deletes (flag update) and deleteColumn
hard-deletes (row delete); in both cases the item is removed from the
in-memory collection and every remaining sibling is kept with its position
field unchanged (the very same record stays in the collection). -/
theorem C9_delete_no_renumber :
    (∀ (tasks : List Task) (tid : Nat),
      (deleteTask tasks tid).2 = DeleteKind.softDelete ∧
      (deleteTask tasks tid).1 = tasks.filter (fun t => t.id != tid) ∧
      ∀ t ∈ tasks, t.id ≠ tid → t ∈ (deleteTask tasks tid).1) ∧
    (∀ (cols : List Column) (cid : Nat),
      (deleteColumn cols cid).2 = DeleteKind.hardDelete ∧
      (deleteColumn cols cid).1 = cols.filter (fun c => c.id != cid) ∧
      ∀ c ∈ cols, c.id ≠ cid → c ∈ (deleteColumn cols cid).1) := by
  constructor
  · intro tasks tid
    refine ⟨rfl, rfl, ?_⟩
    intro t ht hne
    show t ∈ tasks.filter (fun s => s.id != tid)
    rw [List.mem_filter]
    exact ⟨ht, by simpa using hne⟩
  · intro cols cid
    refine ⟨rfl, rfl, ?_⟩
    intro c hc hne
    show c ∈ cols.filter (fun s => s.id != cid)
    rw [List.mem_filter]
    exact ⟨hc, by simpa using hne⟩

theorem reindexCols_ids (cols : List Column) :
    ∀ (i : Nat), (reindexCols i cols).map (fun c => c.id) = cols.map (fun c => c.id) := by
  induction cols with
  | nil => intro i; rfl
  | cons c cs ih =>
    intro i
    unfold reindexCols
    rw [List.map_cons, List.map_cons, ih (i + 1)]

/-- C4 counterexample: reordering column B of the page with columns
A at 0, B at 1, C at 2 to index 2 commits successfully, and its batched
upsert payload contains a row for column A whose id, page and position all
equal A's unchanged pre-move values — the payload is not the minimal diff. -/
theorem C4_counterexample :
    ((reorderColumns [⟨1, 7, "A", "c", 0⟩, ⟨2, 7, "B", "c", 1⟩, ⟨3, 7, "C", "c", 2⟩]
        2 2 true).ret = true) ∧
    ((reorderColumns [⟨1, 7, "A", "c", 0⟩, ⟨2, 7, "B", "c", 1⟩, ⟨3, 7, "C", "c", 2⟩]
        2 2 true).calls =
      [[⟨1, 7, "A", "c", 0⟩, ⟨3, 7, "C", "c", 1⟩, ⟨2, 7, "B", "c", 2⟩]]) ∧
    ((⟨1, 7, "A", "c", 0⟩ : Column) ∈
      [(⟨1, 7, "A", "c", 0⟩ : Column), ⟨2, 7, "B", "c", 1⟩, ⟨3, 7, "C", "c", 2⟩]) ∧
    ((⟨1, 7, "A", "c", 0⟩ : ColRow).position = (⟨1, 7, "A", "c", 0⟩ : Column).position) ∧
    ((⟨1, 7, "A", "c", 0⟩ : ColRow).page_id = (⟨1, 7, "A", "c", 0⟩ : Column).page_id) := by
  decide

/-- C4 amended: in moveTask's payload every row other than the dragged
task's names a task whose position or column actually changed (the dragged
task's row itself is always present, changed or not), while reorderColumns'
payload is not minimal at all: it carries one row per column of the page,
its id multiset being exactly the page's column ids. -/
theorem C4_payload_contents :
    (∀ (uid : Nat) (tasks : List Task) (tid tCol tPos : Nat) (task : Task),
      (tasks.map (fun t => t.id)).Nodup →
      tasks.find? (fun t => t.id == tid) = some task →
      ∀ call ∈ (moveTask (some uid) tasks tid tCol tPos true).calls,
      ∀ row ∈ call, row.id ≠ tid →
      ∀ s ∈ tasks, s.id = row.id →
      s.position ≠ row.position ∨ s.column_id ≠ row.column_id) ∧
    (∀ (cols : List Column) (cid newPos i : Nat) (col : Column),
      cols.findIdx? (fun c => c.id == cid) = some i →
      cols[i]? = some col →
      ∀ call ∈ (reorderColumns cols cid newPos true).calls,
      (call.map (fun r => r.id)).Perm (cols.map (fun c => c.id))) := by
  constructor
  · intro uid tasks tid tCol tPos task hnd hfind call hcall row hrowm hrowid s hs hsid
    obtain ⟨_, _, hcalls⟩ := moveTask_success_parts uid tasks tid tCol tPos task hfind
    rw [hcalls, List.mem_singleton] at hcall
    subst hcall
    rw [List.mem_map] at hrowm
    obtain ⟨u, hu, he⟩ := hrowm
    have hrid : row.id = u.id := by rw [← he]
    have hrpos : row.position = u.position := by rw [← he]
    have hrcol : row.column_id = u.column_id := by rw [← he]
    have huid : u.id ≠ tid := by rw [← hrid]; exact hrowid
    have htid : task.id = tid := by simpa using List.find?_some hfind
    have horig : ∃ s0 ∈ tasks,
        s0.id = u.id ∧ s0.position ≠ u.position ∧ s0.column_id = u.column_id := by
      by_cases hcol : task.column_id = tCol
      · rw [moveUpdates_within tasks task tid tCol tPos hcol] at hu
        obtain ⟨s1, hs1, hs1i, hs1p, hs1c⟩ := targetUpds_origin tid tCol _ 0 u hu huid
        rw [mem_splice_iff] at hs1
        rcases hs1 with h | h
        · exact absurd (hs1i.symm.trans (by rw [h]; exact htid)) huid
        · have h2 := (sortByPos_perm _).subset h
          rw [List.mem_filter] at h2
          exact ⟨s1, h2.1, hs1i, hs1p, hs1c⟩
      · rw [moveUpdates_cross tasks task tid tCol tPos hcol, List.mem_append] at hu
        rcases hu with hu | hu
        · obtain ⟨s1, hs1, hs1i, hs1p, hs1c⟩ := targetUpds_origin tid tCol _ 0 u hu huid
          rw [mem_splice_iff] at hs1
          rcases hs1 with h | h
          · exact absurd (hs1i.symm.trans (by rw [h]; exact htid)) huid
          · have h2 := (sortByPos_perm _).subset h
            rw [List.mem_filter] at h2
            exact ⟨s1, h2.1, hs1i, hs1p, hs1c⟩
        · obtain ⟨s1, hs1, hs1i, hs1p, hs1c⟩ := sourceUpds_origin _ 0 u hu
          have h2 := (sortByPos_perm _).subset hs1
          rw [List.mem_filter] at h2
          exact ⟨s1, h2.1, hs1i, hs1p, hs1c⟩
    obtain ⟨s0, hs0t, hs0i, hs0p, hs0c⟩ := horig
    have hss : s0 = s := List.inj_on_of_nodup_map hnd hs0t hs
      (hs0i.trans (hrid.symm.trans hsid.symm))
    left
    rw [hrpos, ← hss]
    exact hs0p
  · intro cols cid newPos i col hidx hget call hcall
    have hcalls := congrArg ReorderOutcome.calls
      (reorderColumns_success_eq cols cid newPos i col hidx hget)
    replace hcall : call =
        (reindexCols 0 (splice (cols.take i ++ cols.drop (i + 1)) newPos col)).map
          (fun c => ⟨c.id, c.page_id, c.title, c.color, c.position⟩) := by
      rw [hcalls] at hcall
      simpa using hcall
    subst hcall
    rw [List.map_map]
    show ((reindexCols 0 (splice (cols.take i ++ cols.drop (i + 1)) newPos col)).map
      (fun c => c.id)).Perm (cols.map (fun c => c.id))
    rw [reindexCols_ids]
    have h1 := (splice_perm (cols.take i ++ cols.drop (i + 1)) newPos col).map
      (fun c => c.id)
    refine h1.trans ?_
    obtain ⟨hlt, hel⟩ := List.getElem?_eq_some.mp hget
    have h2 : cols = cols.take i ++ col :: cols.drop (i + 1) := by
      conv_lhs => rw [← List.take_append_drop i cols]
      rw [List.drop_eq_getElem_cons hlt, hel]
    conv_rhs => rw [h2]
    rw [List.map_cons, List.map_append, List.map_append, List.map_cons]
    exact List.perm_middle.symm

/-- Witness for C4 amended: concrete move of A within its column and the
concrete column reorder used in the counterexample. -/
theorem C4_payload_contents_witness :
    (∀ call ∈ (moveTask (some 9)
        [⟨1, 7, 10, 0, false, "A"⟩, ⟨2, 7, 10, 1, false, "B"⟩, ⟨3, 7, 10, 2, false, "C"⟩]
        1 10 2 true).calls,
      ∀ row ∈ call, row.id ≠ 1 →
      ∀ s ∈ [(⟨1, 7, 10, 0, false, "A"⟩ : Task), ⟨2, 7, 10, 1, false, "B"⟩,
        ⟨3, 7, 10, 2, false, "C"⟩], s.id = row.id →
      s.position ≠ row.position ∨ s.column_id ≠ row.column_id) ∧
    (∀ call ∈ (reorderColumns
        [⟨1, 7, "A", "c", 0⟩, ⟨2, 7, "B", "c", 1⟩, ⟨3, 7, "C", "c", 2⟩] 2 2 true).calls,
      (call.map (fun r => r.id)).Perm
        (([⟨1, 7, "A", "c", 0⟩, ⟨2, 7, "B", "c", 1⟩, ⟨3, 7, "C", "c", 2⟩] :
          List Column).map (fun c => c.id))) :=
  ⟨C4_payload_contents.1 9
      [⟨1, 7, 10, 0, false, "A"⟩, ⟨2, 7, 10, 1, false, "B"⟩, ⟨3, 7, 10, 2, false, "C"⟩]
      1 10 2 ⟨1, 7, 10, 0, false, "A"⟩ (by decide) (by decide),
    C4_payload_contents.2
      [⟨1, 7, "A", "c", 0⟩, ⟨2, 7, "B", "c", 1⟩, ⟨3, 7, "C", "c", 2⟩] 2 2 1
      ⟨2, 7, "B", "c", 1⟩ (by decide) (by decide)⟩

theorem insertByPos_sorted (t : Task) (l : List Task)
    (h : List.Sorted (fun a b : Task => a.position ≤ b.position) l) :
    List.Sorted (fun a b : Task => a.position ≤ b.position) (insertByPos t l) := by
  induction l with
  | nil => exact List.sorted_singleton t
  | cons s ss ih =>
    rw [List.sorted_cons] at h
    obtain ⟨hs, hss⟩ := h
    unfold insertByPos
    by_cases hc : t.position < s.position
    · rw [if_pos hc, List.sorted_cons]
      refine ⟨?_, by rw [List.sorted_cons]; exact ⟨hs, hss⟩⟩
      intro b hb
      rw [List.mem_cons] at hb
      rcases hb with hb | hb
      · rw [hb]
        exact Nat.le_of_lt hc
      · exact Nat.le_trans (Nat.le_of_lt hc) (hs b hb)
    · rw [if_neg hc, List.sorted_cons]
      refine ⟨?_, ih hss⟩
      intro b hb
      have hb2 := (insertByPos_perm t ss).mem_iff.mp hb
      rw [List.mem_cons] at hb2
      rcases hb2 with hb2 | hb2
      · rw [hb2]
        exact Nat.le_of_not_lt hc
      · exact hs b hb2

theorem sortByPos_sorted (l : List Task) :
    List.Sorted (fun a b : Task => a.position ≤ b.position) (sortByPos l) := by
  induction l with
  | nil => exact List.sorted_nil
  | cons t ts ih => exact insertByPos_sorted t (sortByPos ts) ih

/-- Positions of a dense group, once sorted by position, are literally
0, 1, ..., n-1. -/
theorem sorted_positions_of_dense (l : List Task) (h : dense l) :
    (sortByPos l).map (fun t => t.position) = List.range l.length := by
  unfold dense at h
  have hperm : ((sortByPos l).map (fun t => t.position)).Perm (List.range l.length) :=
    ((sortByPos_perm l).map (fun t => t.position)).trans h
  have hsorted : List.Sorted (fun a b : Nat => a ≤ b)
      ((sortByPos l).map (fun t => t.position)) :=
    List.Pairwise.map (fun t : Task => t.position) (fun _ _ hab => hab) (sortByPos_sorted l)
  exact List.eq_of_perm_of_sorted hperm hsorted (List.sorted_le_range l.length)

theorem reindexTasks_cons (i : Nat) (t : Task) (ts : List Task) :
    reindexTasks i (t :: ts) = { t with position := i } :: reindexTasks (i + 1) ts := rfl

theorem map_shift_eq_reindexTasks (l : List Task) :
    ∀ (i : Nat), l.map (fun t => t.position) = List.range' i l.length →
      l.map (fun t => { t with position := t.position + 1 }) = reindexTasks (i + 1) l := by
  induction l with
  | nil => intro i _; rfl
  | cons t ts ih =>
    intro i h
    rw [List.map_cons, List.length_cons, List.range'_succ] at h
    injection h with h1 h2
    rw [List.map_cons, reindexTasks_cons, h1]
    rw [ih (i + 1) h2]

/-- C8: when the target column's positions are dense before the insert, the
insert-at-top fast path of createTask (new task at position 0, every
existing task of the column shifted by one) assigns exactly the same
(id, position) pairs to the column as the full reindex of the ordered
column list with the new task spliced in at index 0, and the dense
invariant is preserved. -/
theorem C8_fastpath_eq_full_reindex :
    ∀ (tasks : List Task) (newTask : Task),
      newTask.position = 0 →
      dense (tasks.filter (fun t => t.column_id == newTask.column_id)) →
      ((((createTaskLocal tasks newTask).filter
          (fun t => t.column_id == newTask.column_id)).map
          (fun t => (t.id, t.position))).Perm
        ((specInsertTopReindex tasks newTask).map (fun t => (t.id, t.position)))) ∧
      dense ((createTaskLocal tasks newTask).filter
        (fun t => t.column_id == newTask.column_id)) := by
  intro tasks newTask hpos hdense
  have hfilter : (createTaskLocal tasks newTask).filter
      (fun t => t.column_id == newTask.column_id) =
      newTask :: (tasks.filter (fun t => t.column_id == newTask.column_id)).map
        (fun t => { t with position := t.position + 1 }) := by
    unfold createTaskLocal
    rw [List.filter_cons, if_pos (by simp)]
    congr 1
    rw [List.filter_map]
    have hcongr : ∀ x ∈ tasks,
        ((fun t => t.column_id == newTask.column_id) ∘
          (fun t => if t.column_id == newTask.column_id
            then { t with position := t.position + 1 } else t)) x =
        (x.column_id == newTask.column_id) := by
      intro x _
      by_cases hx : (x.column_id == newTask.column_id) = true
      · simp only [Function.comp_apply, if_pos hx]
      · simp only [Function.comp_apply, if_neg hx]
    rw [List.filter_congr hcongr]
    refine List.map_congr_left ?_
    intro x hx
    rw [List.mem_filter] at hx
    rw [if_pos hx.2]
  have hsortedpos : (sortByPos (tasks.filter
      (fun t => t.column_id == newTask.column_id))).map (fun t => t.position) =
      List.range' 0 (sortByPos (tasks.filter
        (fun t => t.column_id == newTask.column_id))).length := by
    have h0 := sorted_positions_of_dense _ hdense
    rw [List.range_eq_range'] at h0
    rw [(sortByPos_perm (tasks.filter
      (fun t => t.column_id == newTask.column_id))).length_eq]
    exact h0
  have hshift : (sortByPos (tasks.filter
      (fun t => t.column_id == newTask.column_id))).map
        (fun t => { t with position := t.position + 1 }) =
      reindexTasks 1 (sortByPos (tasks.filter
        (fun t => t.column_id == newTask.column_id))) :=
    map_shift_eq_reindexTasks _ 0 hsortedpos
  have hspec : specInsertTopReindex tasks newTask =
      newTask :: reindexTasks 1 (sortByPos (tasks.filter
        (fun t => t.column_id == newTask.column_id))) := by
    unfold specInsertTopReindex
    rw [reindexTasks_cons]
    have hhead : ({ newTask with position := 0 } : Task) = newTask := by
      rw [← hpos]
    rw [hhead]
  have hmapperm : ((tasks.filter (fun t => t.column_id == newTask.column_id)).map
      (fun t => { t with position := t.position + 1 })).Perm
      (reindexTasks 1 (sortByPos (tasks.filter
        (fun t => t.column_id == newTask.column_id)))) := by
    have h1 := ((sortByPos_perm (tasks.filter
      (fun t => t.column_id == newTask.column_id))).symm).map
      (fun t => { t with position := t.position + 1 })
    rw [hshift] at h1
    exact h1
  constructor
  · rw [hfilter, hspec, List.map_cons, List.map_cons]
    exact List.Perm.cons _ (hmapperm.map (fun t => (t.id, t.position)))
  · unfold dense
    rw [hfilter, List.map_cons, List.length_cons, List.length_map]
    have hposmap : (((tasks.filter (fun t => t.column_id == newTask.column_id)).map
        (fun t => { t with position := t.position + 1 })).map (fun t => t.position)) =
        (((tasks.filter (fun t => t.column_id == newTask.column_id)).map
          (fun t => t.position)).map (fun x => x + 1)) := by
      rw [List.map_map, List.map_map]
      exact List.map_congr_left (fun x _ => rfl)
    rw [hposmap, hpos]
    have hstep : ((((tasks.filter (fun t => t.column_id == newTask.column_id)).map
        (fun t => t.position)).map (fun x => x + 1))).Perm
        ((List.range ((tasks.filter
          (fun t => t.column_id == newTask.column_id)).length)).map (fun x => x + 1)) :=
      hdense.map (fun x => x + 1)
    have hrange : ((List.range ((tasks.filter
        (fun t => t.column_id == newTask.column_id)).length)).map (fun x => x + 1)) =
        List.range' 1 ((tasks.filter
          (fun t => t.column_id == newTask.column_id)).length) := by
      rw [List.range'_eq_map_range]
      exact List.map_congr_left (fun x _ => Nat.add_comm x 1)
    rw [hrange] at hstep
    refine (List.Perm.cons 0 hstep).trans ?_
    have h2 : (0 : Nat) :: List.range' 1 ((tasks.filter
        (fun t => t.column_id == newTask.column_id)).length) =
        List.range' 0 ((tasks.filter
          (fun t => t.column_id == newTask.column_id)).length + 1) := by
      rw [List.range'_succ]
    rw [h2, List.range_eq_range']

/-- Witness for C8: inserting a new task on top of the dense column
A at 0, B at 1, C at 2. -/
theorem C8_fastpath_eq_full_reindex_witness :
    ((((createTaskLocal
        [⟨1, 7, 10, 0, false, "A"⟩, ⟨2, 7, 10, 1, false, "B"⟩, ⟨3, 7, 10, 2, false, "C"⟩]
        ⟨9, 7, 10, 0, false, "new"⟩).filter
        (fun t => t.column_id == (⟨9, 7, 10, 0, false, "new"⟩ : Task).column_id)).map
        (fun t => (t.id, t.position))).Perm
      ((specInsertTopReindex
        [⟨1, 7, 10, 0, false, "A"⟩, ⟨2, 7, 10, 1, false, "B"⟩, ⟨3, 7, 10, 2, false, "C"⟩]
        ⟨9, 7, 10, 0, false, "new"⟩).map (fun t => (t.id, t.position)))) ∧
    dense ((createTaskLocal
        [⟨1, 7, 10, 0, false, "A"⟩, ⟨2, 7, 10, 1, false, "B"⟩, ⟨3, 7, 10, 2, false, "C"⟩]
        ⟨9, 7, 10, 0, false, "new"⟩).filter
      (fun t => t.column_id == (⟨9, 7, 10, 0, false, "new"⟩ : Task).column_id)) :=
  C8_fastpath_eq_full_reindex
    [⟨1, 7, 10, 0, false, "A"⟩, ⟨2, 7, 10, 1, false, "B"⟩, ⟨3, 7, 10, 2, false, "C"⟩]
    ⟨9, 7, 10, 0, false, "new"⟩ (by decide) (by decide)

/-- Witness for C9 amended: deleting task 1 from a two-task column keeps
task 2 at its position 5 unchanged; deleting a column keeps its sibling. -/
theorem C9_delete_no_renumber_witness :
    ((deleteTask [⟨1, 7, 10, 0, false, "A"⟩, ⟨2, 7, 10, 5, false, "B"⟩] 1).2 =
        DeleteKind.softDelete ∧
      (deleteTask [⟨1, 7, 10, 0, false, "A"⟩, ⟨2, 7, 10, 5, false, "B"⟩] 1).1 =
        [⟨1, 7, 10, 0, false, "A"⟩, ⟨2, 7, 10, 5, false, "B"⟩].filter
          (fun t => t.id != 1) ∧
      ∀ t ∈ [(⟨1, 7, 10, 0, false, "A"⟩ : Task), ⟨2, 7, 10, 5, false, "B"⟩], t.id ≠ 1 →
        t ∈ (deleteTask [⟨1, 7, 10, 0, false, "A"⟩, ⟨2, 7, 10, 5, false, "B"⟩] 1).1) ∧
    ((deleteColumn [⟨1, 7, "A", "c", 0⟩, ⟨2, 7, "B", "c", 3⟩] 1).2 =
        DeleteKind.hardDelete ∧
      (deleteColumn [⟨1, 7, "A", "c", 0⟩, ⟨2, 7, "B", "c", 3⟩] 1).1 =
        [⟨1, 7, "A", "c", 0⟩, ⟨2, 7, "B", "c", 3⟩].filter (fun c => c.id != 1) ∧
      ∀ c ∈ [(⟨1, 7, "A", "c", 0⟩ : Column), ⟨2, 7, "B", "c", 3⟩], c.id ≠ 1 →
        c ∈ (deleteColumn [⟨1, 7, "A", "c", 0⟩, ⟨2, 7, "B", "c", 3⟩] 1).1) :=
  ⟨C9_delete_no_renumber.1 [⟨1, 7, 10, 0, false, "A"⟩, ⟨2, 7, 10, 5, false, "B"⟩] 1,
    C9_delete_no_renumber.2 [⟨1, 7, "A", "c", 0⟩, ⟨2, 7, "B", "c", 3⟩] 1⟩

end Board
